import Mathlib

set_option maxRecDepth 16000

namespace GaiaSpec

/-!
Shallow embedding of the gaia-ecs core (src/include/gaia/ecs/world.h and the
archetype/chunk/query sources) used to check the specification's claims.
Machine integers are modelled as Nat with explicit reduction modulo 2^w at the
points where the C++ code relies on wrap-around.  Pointers to archetypes are
modelled by their dense index in the world's archetype list: RegisterArchetype
assigns `id = m_archetypes.size()` and pushes, so an archetype's id always
equals its position and archetypes are never deleted by the modelled
operations.
-/

/-! ### Small list helpers (modelling utils::find_if / get_index / erase_fast) -/

/-- Index of the first element satisfying the predicate (models
utils::get_index_if / core::get_index which return BadIndex when absent;
here the absent case is `none`). -/
def findIdxP (p : α → Bool) : List α → Option Nat
  | [] => none
  | a :: as => if p a then some 0 else (findIdxP p as).map (· + 1)

/-- Erase by swapping with the last element and popping the back, the
semantics of utils::erase_fast / core::erase_fast (the helper itself lives in
a header that is not under src/; its swap-with-last behaviour is documented at
its call site in Archetype::del: "We are swapping this chunk's entry with the
last one in the array"). -/
def eraseFast [Inhabited α] (l : List α) (i : Nat) : List α :=
  if i < l.length then (l.set i ((l.getLast?).getD default)).dropLast else l

/-! ### Cluster A: archetype registry and graph

Embedding of the archetype-management part of src/include/gaia/ecs/world.h
with GAIA_ARCHETYPE_GRAPH enabled (the configuration macro lives in the
missing config header; the spec describes the archetype graph as a core
subsystem, so the graph branches are the ones modelled).  Chunk-level data
movement (MoveEntity's memcpy loop) does not influence which archetype an
entity ends up in, so the entity table records the entity's archetype id
(`none` = no chunk, exactly like a null EntityContainer::pChunk). -/

/-- ComponentType from component.h: CT_Generic and CT_Chunk. -/
inductive CompType where
  | generic
  | chunk
deriving DecidableEq

/-- The other component type, as computed by `(componentType + 1) & 1`. -/
def CompType.other : CompType → CompType
  | .generic => .chunk
  | .chunk => .generic

/-- ArchetypeGraphEdge: a component info (identified by its infoIndex) and the
target archetype (by id). -/
structure GraphEdge where
  info : Nat
  archetype : Nat
deriving DecidableEq

/-- Archetype (old archetype.h): sorted component-info lists per ComponentType
plus the add/del edge lists of the archetype graph.  Component infos are
identified by their `infoIndex`, the key the code sorts and compares by. -/
structure ArchetypeM where
  compsG : List Nat
  compsC : List Nat
  edgesAddG : List GraphEdge
  edgesAddC : List GraphEdge
  edgesDelG : List GraphEdge
  edgesDelC : List GraphEdge
deriving DecidableEq

def ArchetypeM.compsOf (a : ArchetypeM) : CompType → List Nat
  | .generic => a.compsG
  | .chunk => a.compsC

def ArchetypeM.edgesAddOf (a : ArchetypeM) : CompType → List GraphEdge
  | .generic => a.edgesAddG
  | .chunk => a.edgesAddC

def ArchetypeM.edgesDelOf (a : ArchetypeM) : CompType → List GraphEdge
  | .generic => a.edgesDelG
  | .chunk => a.edgesDelC

/-- Append an edge to `edgesAdd[ct]` (left->edgesAdd[componentType].push_back). -/
def ArchetypeM.pushAddEdge (a : ArchetypeM) (ct : CompType) (e : GraphEdge) : ArchetypeM :=
  match ct with
  | .generic => { a with edgesAddG := a.edgesAddG ++ [e] }
  | .chunk => { a with edgesAddC := a.edgesAddC ++ [e] }

/-- The empty archetype record; the root archetype is exactly this. -/
def emptyArch : ArchetypeM := ⟨[], [], [], [], [], []⟩

/-- Build an archetype whose `ct` components are `own`, whose other-type
components are `other`, and whose del-edge list for `ct` is `dels`
(covers both CreateArchetype argument orders for CT_Generic / CT_Chunk). -/
def mkArch (ct : CompType) (own other : List Nat) (dels : List GraphEdge) : ArchetypeM :=
  match ct with
  | .generic => ⟨own, other, [], [], dels, []⟩
  | .chunk => ⟨other, own, [], [], [], dels⟩

/-- World state for the archetype-graph cluster: dense archetype list (index =
archetype id, root at index 0) and the entity table reduced to the archetype
each entity's chunk belongs to (`none` = pChunk == nullptr). -/
structure WorldA where
  archetypes : List ArchetypeM
  entityArch : List (Option Nat)
deriving DecidableEq

/-- World after World::Init: the root archetype (empty component set) is
created and registered with id 0. -/
def initWorldA : WorldA := ⟨[emptyArch], []⟩

/-- Archetype lookup by id (pointer dereference in the C++ code). -/
def getA (w : WorldA) (i : Nat) : ArchetypeM :=
  w.archetypes.getD i emptyArch

/-- CreateEntity for an empty entity: AllocateEntity leaves pChunk null. -/
def createEntityA (w : WorldA) : WorldA :=
  { w with entityArch := w.entityArch ++ [none] }

/-- Sorting of component-info spans by infoIndex done in CreateArchetype
(utils::sort, ascending). -/
def sortNats (l : List Nat) : List Nat :=
  l.insertionSort (· ≤ ·)

/-- Search `edgesAdd[componentType]` for an edge whose info matches
(utils::find_if in FindOrCreateArchetype). -/
def findEdgeAdd (a : ArchetypeM) (ct : CompType) (t : Nat) : Option GraphEdge :=
  (a.edgesAddOf ct).find? (fun e => e.info = t)

/-- Modelled from the spec: Archetype::FindDelEdgeArchetype is declared in the
archetype header which is not under src/; per spec §4.4 `find_edge_left(E)`
it returns the target of the del edge keyed by the component, or null. -/
def findDelEdgeArchetype (a : ArchetypeM) (ct : CompType) (t : Nat) : Option Nat :=
  ((a.edgesDelOf ct).find? (fun e => e.info = t)).map (fun e => e.archetype)

/-- FindArchetype specialised to the root special case of FindOrCreateArchetype:
look up the archetype with exactly one `ct` component `t` and no other-type
components.  The C++ code looks up by lookup hash and then compares the
component lists element-wise inside the hash bucket; the hash is a function of
the sorted component lists alone (spec §3), so modulo hash collisions the
lookup is exactly this exact-list search. -/
def findArchetypeSingle (w : WorldA) (ct : CompType) (t : Nat) : Option Nat :=
  findIdxP (fun a => a.compsOf ct == [t] && a.compsOf ct.other == []) w.archetypes

/-- Create + register the single-component archetype reached from the root
(the root branch of FindOrCreateArchetype): the new archetype is registered
and receives only a del edge back to the root; no add edge is stored on the
root. -/
def registerRootSingle (w : WorldA) (ct : CompType) (t : Nat) : WorldA × Nat :=
  let newId := w.archetypes.length
  let newArch := mkArch ct [t] [] [⟨t, 0⟩]
  ({ w with archetypes := w.archetypes ++ [newArch] }, newId)

/-- Create + register a new archetype obtained by adding component `t` to the
archetype `node` (the non-edge branch of FindOrCreateArchetype's loop):
newInfos is the node's `ct` list plus `t`, re-sorted by CreateArchetype; the
other-type list is copied; RegisterArchetype assigns id = size and pushes;
BuildGraphEdges then records node.edgesAdd[ct] += (t, new) and
new.edgesDel[ct] += (t, node) (the del edge is built into the new record). -/
def registerFromNode (w : WorldA) (node : Nat) (ct : CompType) (t : Nat) : WorldA × Nat :=
  let a := getA w node
  let newId := w.archetypes.length
  let newArch := mkArch ct (sortNats (a.compsOf ct ++ [t])) (a.compsOf ct.other) [⟨t, node⟩]
  let archetypes1 := w.archetypes ++ [newArch]
  let archetypes2 := archetypes1.set node ((getA w node).pushAddEdge ct ⟨t, newId⟩)
  ({ w with archetypes := archetypes2 }, newId)

/-- The per-component loop of FindOrCreateArchetype (graph version): follow an
existing add edge, otherwise create the next archetype and build both edges. -/
def focAddLoop (w : WorldA) (node : Nat) (ct : CompType) : List Nat → WorldA × Nat
  | [] => (w, node)
  | t :: rest =>
    match findEdgeAdd (getA w node) ct t with
    | some e => focAddLoop w e.archetype ct rest
    | none =>
      let r := registerFromNode w node ct t
      focAddLoop r.1 r.2 ct rest

/-- FindOrCreateArchetype(oldArchetype, componentType, newTypes), graph
version (world.h:432).  The root archetype stores no add edges: from the root
the world goes through the hash lookup for the first component, creating the
single-component archetype (with only a del edge back to the root) when
absent. -/
def findOrCreateArchetypeAdd (w : WorldA) (node : Nat) (ct : CompType) (ts : List Nat) :
    WorldA × Nat :=
  if node = 0 then
    match ts with
    | [] => (w, node)
    | t0 :: rest =>
      match findArchetypeSingle w ct t0 with
      | some b => focAddLoop w b ct rest
      | none =>
        let r := registerRootSingle w ct t0
        focAddLoop r.1 r.2 ct rest
  else focAddLoop w node ct ts

/-- The walk of FindArchetype_RemoveComponents (graph version, world.h:545):
follow del edges, one per removed component. -/
def findArchRemoveLoop (w : WorldA) (node : Option Nat) (ct : CompType) :
    List Nat → Option Nat
  | [] => node
  | t :: rest =>
    match node with
    | none => none
    | some n => findArchRemoveLoop w (findDelEdgeArchetype (getA w n) ct t) ct rest

def findArchetypeRemoveComponents (w : WorldA) (node : Nat) (ct : CompType) (ts : List Nat) :
    Option Nat :=
  findArchRemoveLoop w (some node) ct ts

/-- AddComponent_Internal: an entity with a chunk starts from its chunk's
archetype, an empty entity starts from the root archetype; the entity then
moves to the found-or-created archetype (MoveEntity / StoreEntity). -/
def addComponentA (w : WorldA) (e : Nat) (ct : CompType) (ts : List Nat) : WorldA :=
  let node := (w.entityArch.getD e none).getD 0
  let r := findOrCreateArchetypeAdd w node ct ts
  { r.1 with entityArch := r.1.entityArch.set e (some r.2) }

/-- RemoveComponent_Internal (graph version): walk the del edges from the
entity's archetype and move the entity there.  A null chunk or a missing del
edge is undefined behaviour in the C++ code (debug assertion); the model
leaves the world unchanged in those unreachable branches. -/
def removeComponentA (w : WorldA) (e : Nat) (ct : CompType) (ts : List Nat) : WorldA :=
  match w.entityArch.getD e none with
  | none => w
  | some a =>
    match findArchetypeRemoveComponents w a ct ts with
    | none => w
    | some b => { w with entityArch := w.entityArch.set e (some b) }

/-- World states reachable through the public mutation interface (CreateEntity,
AddComponent<T>, RemoveComponent<T> — the public templates take one component
per call). -/
inductive ReachableA : WorldA → Prop
  | init : ReachableA initWorldA
  | newEntity {w} : ReachableA w → ReachableA (createEntityA w)
  | addComp {w} (e : Nat) (ct : CompType) (t : Nat) :
      ReachableA w → e < w.entityArch.length → ReachableA (addComponentA w e ct [t])
  | delComp {w} (e : Nat) (ct : CompType) (t : Nat) :
      ReachableA w → e < w.entityArch.length → ReachableA (removeComponentA w e ct [t])

/-- Well-formedness of the archetype registry and graph, preserved by all
reachable transitions. -/
structure WFA (w : WorldA) : Prop where
  rootExists : 0 < w.archetypes.length
  rootComps : (getA w 0).compsG = [] ∧ (getA w 0).compsC = []
  addValid : ∀ i ct e, e ∈ (getA w i).edgesAddOf ct →
    e.archetype < w.archetypes.length ∧ 0 < e.archetype
  delValid : ∀ i ct e, e ∈ (getA w i).edgesDelOf ct → e.archetype < w.archetypes.length
  pairing : ∀ i ct e, e ∈ (getA w i).edgesAddOf ct →
    (⟨e.info, i⟩ : GraphEdge) ∈ (getA w e.archetype).edgesDelOf ct
  delNodup : ∀ i ct, (((getA w i).edgesDelOf ct).map GraphEdge.info).Nodup
  singleDel : ∀ i ct t, 0 < i → i < w.archetypes.length →
    (getA w i).compsOf ct = [t] → (getA w i).compsOf ct.other = [] →
    (⟨t, 0⟩ : GraphEdge) ∈ (getA w i).edgesDelOf ct
  nonempty : ∀ i, 0 < i → i < w.archetypes.length →
    ((getA w i).compsG ≠ [] ∨ (getA w i).compsC ≠ [])
  entValid : ∀ e a, w.entityArch.getD e none = some a → a < w.archetypes.length

/-- Concrete world for the C1 counterexample: one entity, one AddComponent;
the single-component archetype is reached from the root through the hash
lookup, and no add edge is recorded on the root. -/
def w1c : WorldA := addComponentA (createEntityA initWorldA) 0 .generic [5]

/-- Concrete world for the C2 scenario: components 1 and 2 added in the order
1,2 to entity 0 and in the order 2,1 to entity 1. -/
def w2c : WorldA :=
  addComponentA
    (addComponentA
      (addComponentA
        (addComponentA (createEntityA (createEntityA initWorldA)) 0 .generic [1])
        0 .generic [2])
      1 .generic [2])
    1 .generic [1]

/-! ### Cluster B: chunk lifespans, the pending-removal list and GC

Embedding of World::RemoveEntity's post-removal bookkeeping (world.h:125) and
World::GC (world.h:1596).  A chunk is reduced to its entity count and its
lifespan countdown; freed chunks become `none` so chunk identities (their
index) stay stable.  `MAX_CHUNK_LIFESPAN` and the width of the lifespan
bitfield live in headers that are not under src/. -/

/-- Modelled from the spec: MAX_CHUNK_LIFESPAN (configuration
`max_chunk_lifespan`, spec §6) is defined in the missing common header; the
value used upstream is 8. -/
def MAX_CHUNK_LIFESPAN : Nat := 8

/-- Modelled from the spec: the lifespan countdown is a narrow bitfield in the
missing chunk header (the newer archetype source bounds it by
ARCHETYPE_LIFESPAN_BITS = 7); 4 bits are assumed, so unsigned wrap-around of
the field is reduction modulo 16. -/
def CHUNK_LIFESPAN_MOD : Nat := 16

/-- Chunk state relevant to GC: entity count and lifespan countdown. -/
structure GChunk where
  count : Nat
  lifespan : Nat
deriving DecidableEq

instance : Inhabited GChunk := ⟨⟨0, 0⟩⟩

/-- Chunk storage: `none` marks a freed chunk. -/
abbrev ChunkStore := List (Option GChunk)

/-- Dereference a chunk id; invalid ids yield a dummy chunk (a dangling
pointer in C++, never dereferenced in reachable states). -/
def getChunkD (cs : ChunkStore) (cid : Nat) : GChunk :=
  (cs.getD cid none).getD default

def setChunk (cs : ChunkStore) (cid : Nat) (c : GChunk) : ChunkStore :=
  cs.set cid (some c)

/-- World state for the GC cluster. -/
structure World2 where
  chunks : ChunkStore
  toRemove : List Nat
deriving DecidableEq

def initWorld2 : World2 := ⟨[], []⟩

/-- Chunk::AllocateChunk via FindOrCreateFreeChunk: a fresh chunk starts empty
with a zero countdown. -/
def newChunkOp (w : World2) : World2 :=
  { w with chunks := w.chunks ++ [some default] }

/-- Chunk::AddEntity reached through StoreEntity / MoveEntity: the count grows;
the countdown is deliberately left alone (reclaimed chunks are recognised
lazily by GC). -/
def addEntityOp (w : World2) (cid : Nat) : World2 :=
  match w.chunks.getD cid none with
  | none => w
  | some c => { w with chunks := setChunk w.chunks cid { c with count := c.count + 1 } }

/-- Effect of Chunk::RemoveEntity on the count: the request is ignored on an
empty chunk, otherwise one entity is dropped. -/
def chunkAfterRemove (c : GChunk) : GChunk :=
  if c.count = 0 then c else ⟨c.count - 1, c.lifespan⟩

/-- World::RemoveEntity (world.h:125): the chunk drops one entity; chunks that
already requested removal (lifespan > 0) or still hold entities are skipped;
otherwise the countdown is set to MAX_CHUNK_LIFESPAN and the chunk is appended
to m_chunksToRemove. -/
def removeEntityOp (w : World2) (cid : Nat) : World2 :=
  match w.chunks.getD cid none with
  | none => w
  | some c =>
    if 0 < (chunkAfterRemove c).lifespan ∨ 0 < (chunkAfterRemove c).count then
      { w with chunks := setChunk w.chunks cid (chunkAfterRemove c) }
    else
      { chunks := setChunk (setChunk w.chunks cid (chunkAfterRemove c)) cid
          ⟨(chunkAfterRemove c).count, MAX_CHUNK_LIFESPAN⟩,
        toRemove := w.toRemove ++ [cid] }

/-- Measure decoration for the GC loop: 1 while the current list entry's chunk
still has a positive countdown. -/
def gcPen (cs : ChunkStore) (tr : List Nat) (i : Nat) : Nat :=
  if h : i < tr.length then
    if (getChunkD cs (tr.get ⟨i, h⟩)).lifespan ≠ 0 then 1 else 0
  else 0

/-- One decrement of the 4-bit lifespan field, with unsigned wrap-around. -/
def decLifespan (l : Nat) : Nat :=
  (l + (CHUNK_LIFESPAN_MOD - 1)) % CHUNK_LIFESPAN_MOD

/-- The first loop of World::GC (world.h:1598): walk m_chunksToRemove;
reclaimed chunks get a fresh countdown and are erase_fast'ed without
advancing; empty chunks have their countdown decremented (wrapping in the
bitfield); the index advances only while the countdown stays positive — when
it reaches zero the same entry is processed again (the code neither erases it
nor advances), which decrements the zeroed field once more, wrapping it. -/
def gcLoop (cs : ChunkStore) (tr : List Nat) (i : Nat) : ChunkStore × List Nat :=
  if h : i < tr.length then
    if 0 < (getChunkD cs (tr.get ⟨i, h⟩)).count then
      gcLoop
        (setChunk cs (tr.get ⟨i, h⟩)
          ⟨(getChunkD cs (tr.get ⟨i, h⟩)).count, MAX_CHUNK_LIFESPAN⟩)
        (eraseFast tr i) i
    else
      if 0 < decLifespan (getChunkD cs (tr.get ⟨i, h⟩)).lifespan then
        gcLoop
          (setChunk cs (tr.get ⟨i, h⟩)
            ⟨(getChunkD cs (tr.get ⟨i, h⟩)).count,
              decLifespan (getChunkD cs (tr.get ⟨i, h⟩)).lifespan⟩)
          tr (i + 1)
      else
        gcLoop
          (setChunk cs (tr.get ⟨i, h⟩)
            ⟨(getChunkD cs (tr.get ⟨i, h⟩)).count,
              decLifespan (getChunkD cs (tr.get ⟨i, h⟩)).lifespan⟩)
          tr i
  else (cs, tr)
termination_by 2 * (tr.length - i) + gcPen cs tr i
decreasing_by
· have h1 : (eraseFast tr i).length = tr.length - 1 := by
    unfold eraseFast
    rw [if_pos h]
    simp
  have h2 : gcPen
      (setChunk cs (tr.get ⟨i, h⟩)
        ⟨(getChunkD cs (tr.get ⟨i, h⟩)).count, MAX_CHUNK_LIFESPAN⟩)
      (eraseFast tr i) i ≤ 1 := by
    unfold gcPen
    split
    · split <;> omega
    · omega
  omega
· have h2 : gcPen
      (setChunk cs (tr.get ⟨i, h⟩)
        ⟨(getChunkD cs (tr.get ⟨i, h⟩)).count,
          decLifespan (getChunkD cs (tr.get ⟨i, h⟩)).lifespan⟩)
      tr (i + 1) ≤ 1 := by
    unfold gcPen
    split
    · split <;> omega
    · omega
  omega
· -- The countdown just reached zero: the pre-state entry had lifespan 1
  -- (pen 1) and the post-state entry has lifespan 0 (pen 0).
  rename_i _hcount hl2
  have hl0 : decLifespan (getChunkD cs (tr.get ⟨i, h⟩)).lifespan = 0 := by omega
  have hne : (getChunkD cs (tr.get ⟨i, h⟩)).lifespan ≠ 0 := by
    intro hz
    rw [hz] at hl0
    simp [decLifespan, CHUNK_LIFESPAN_MOD] at hl0
  have hsome : ∃ c0, cs.getD (tr.get ⟨i, h⟩) none = some c0 := by
    cases hx : cs.getD (tr.get ⟨i, h⟩) none with
    | none =>
      exfalso
      apply hne
      unfold getChunkD
      rw [hx]
      rfl
    | some c0 => exact ⟨c0, rfl⟩
  have hlt : tr.get ⟨i, h⟩ < cs.length := by
    by_contra hge
    obtain ⟨c0, hc0⟩ := hsome
    rw [List.getD_eq_getElem?_getD, List.getElem?_eq_none (by omega)] at hc0
    simp at hc0
  have hpen2 : gcPen
      (setChunk cs (tr.get ⟨i, h⟩)
        ⟨(getChunkD cs (tr.get ⟨i, h⟩)).count,
          decLifespan (getChunkD cs (tr.get ⟨i, h⟩)).lifespan⟩)
      tr i = 0 := by
    unfold gcPen
    rw [dif_pos h]
    have hget : getChunkD
        (setChunk cs (tr.get ⟨i, h⟩)
          ⟨(getChunkD cs (tr.get ⟨i, h⟩)).count,
            decLifespan (getChunkD cs (tr.get ⟨i, h⟩)).lifespan⟩)
        (tr.get ⟨i, h⟩) =
        ⟨(getChunkD cs (tr.get ⟨i, h⟩)).count,
          decLifespan (getChunkD cs (tr.get ⟨i, h⟩)).lifespan⟩ := by
      unfold getChunkD setChunk
      rw [List.getD_eq_getElem?_getD, List.getElem?_set_eq_of_lt _ hlt]
      rfl
    rw [hget]
    have hl0' : decLifespan (getChunkD cs tr[i]).lifespan = 0 := by
      simpa using hl0
    simp [hl0']
  have hpen1 : gcPen cs tr i = 1 := by
    unfold gcPen
    rw [dif_pos h, if_pos hne]
  omega

/-- World::GC (world.h:1596): run the countdown loop, then the second loop
removes every chunk still recorded in m_chunksToRemove ("Remove all dead
chunks") and the list is cleared. -/
def gcOp (w : World2) : World2 :=
  let r := gcLoop w.chunks w.toRemove 0
  { chunks := r.2.foldl (fun acc cid => acc.set cid none) r.1,
    toRemove := [] }

/-- World states reachable through chunk allocation, entity insertion/removal
and GC. -/
inductive Reachable2 : World2 → Prop
  | init : Reachable2 initWorld2
  | newChunk {w} : Reachable2 w → Reachable2 (newChunkOp w)
  | addEntity {w} (cid : Nat) : Reachable2 w → Reachable2 (addEntityOp w cid)
  | removeEntity {w} (cid : Nat) : Reachable2 w → Reachable2 (removeEntityOp w cid)
  | gc {w} : Reachable2 w → Reachable2 (gcOp w)

/-- Invariant carried by reachable states: the pending-removal list has no
duplicates, and every listed chunk is live with a positive countdown. -/
def Inv2 (w : World2) : Prop :=
  w.toRemove.Nodup ∧
    ∀ cid ∈ w.toRemove, ∃ c, w.chunks.getD cid none = some c ∧ 0 < c.lifespan

/-- Concrete world for the C3 input: a chunk is emptied, entering the removal
list with a full countdown of 8. -/
def w3c : World2 := removeEntityOp (addEntityOp (newChunkOp initWorld2) 0) 0

/-! ### Cluster C: the enabled/disabled partition of a chunk

Embedding of Chunk::swap_chunk_entities, Chunk::enable_entity,
Chunk::enabled, Chunk::size_enabled / size_disabled and Chunk::add_entity
from the newer chunk source (src/unnamed/part_002).  SoA component payloads
are not modelled (the partition claim is about rows and the entity table);
the chunk's entity array holds entity ids, and the entity-container records
keep the row index and the `dis` flag exactly as the code maintains them.
Entity generations are bookkeeping orthogonal to the partition and are left
out. -/

/-- EntityContainer fields used by the partition logic: row index and the
disabled flag. -/
structure EC where
  idx : Nat
  dis : Bool
deriving DecidableEq

instance : Inhabited EC := ⟨⟨0, false⟩⟩

/-- Chunk header fields used by the partition logic plus the entity row
array. -/
structure ChunkC where
  count : Nat
  countEnabled : Nat
  firstEnabled : Nat
  rows : List Nat
deriving DecidableEq

/-- Chunk::get_entity. -/
def getEntityC (c : ChunkC) (i : Nat) : Nat :=
  c.rows.getD i 0

/-- Chunk::set_entity. -/
def setEntityC (c : ChunkC) (i : Nat) (e : Nat) : ChunkC :=
  { c with rows := c.rows.set i e }

/-- Chunk::enabled: a row at or above firstEnabledEntityIndex is enabled. -/
def enabledC (c : ChunkC) (i : Nat) : Bool :=
  c.firstEnabled ≤ i

/-- Chunk::size_enabled. -/
def sizeEnabled (c : ChunkC) : Nat := c.countEnabled

/-- Chunk::size_disabled. -/
def sizeDisabled (c : ChunkC) : Nat := c.firstEnabled

/-- Chunk::swap_chunk_entities (src/unnamed/part_002:703): swap the two rows
and update both entity-container records (index and disabled flag), in the
statement order of the code. -/
def swapChunkEntities (c : ChunkC) (left right : Nat) (ents : List EC) :
    ChunkC × List EC :=
  if c.count ≤ 1 then (c, ents)
  else if left = right then (c, ents)
  else
    let eL := getEntityC c left
    let eR := getEntityC c right
    let c1 := setEntityC (setEntityC c left eR) right eL
    let ecLeftWasDisabled := (ents.getD eL default).dis
    let disRight := (ents.getD eR default).dis
    let ents1 := ents.set eL ⟨right, disRight⟩
    let ents2 := ents1.set eR ⟨left, ecLeftWasDisabled⟩
    (c1, ents2)

/-- Chunk::enable_entity (src/unnamed/part_002:790).  The `has_disabled` /
`has_enabled` guards come from the missing chunk header; they test
firstEnabledEntityIndex > 0 and count > firstEnabledEntityIndex.  Note the
code looks up `get_entity(index)` only after the swap when flipping the
entity-table flag. -/
def enableEntityC (c : ChunkC) (index : Nat) (enableEntity : Bool) (ents : List EC) :
    ChunkC × List EC :=
  if enableEntity then
    if ¬ 0 < c.firstEnabled then (c, ents)
    else if enabledC c index then (c, ents)
    else
      let c0 : ChunkC := { c with firstEnabled := c.firstEnabled - 1 }
      let r := swapChunkEntities c0 (c.firstEnabled - 1) index ents
      let target := getEntityC r.1 index
      let ents2 := r.2.set target ⟨(r.2.getD target default).idx, false⟩
      ({ r.1 with countEnabled := r.1.countEnabled + 1 }, ents2)
  else
    if ¬ c.firstEnabled < c.count then (c, ents)
    else if ¬ enabledC c index then (c, ents)
    else
      let c0 : ChunkC := { c with firstEnabled := c.firstEnabled + 1 }
      let r := swapChunkEntities c0 c.firstEnabled index ents
      let target := getEntityC r.1 index
      let ents2 := r.2.set target ⟨(r.2.getD target default).idx, true⟩
      ({ r.1 with countEnabled := r.1.countEnabled - 1 }, ents2)

/-- Chunk::add_entity plus the caller's entity-container update (the world
stores row and a cleared disabled flag for a freshly placed entity, spec
§4.6): the entity lands on row `count`, at the end of the enabled region. -/
def addEntityC (c : ChunkC) (e : Nat) (ents : List EC) : ChunkC × List EC :=
  let row := c.count
  let c1 : ChunkC :=
    { count := c.count + 1, countEnabled := c.countEnabled + 1,
      firstEnabled := c.firstEnabled,
      rows := if row < c.rows.length then c.rows.set row e else c.rows ++ [e] }
  (c1, ents.set e ⟨row, false⟩)

/-- Concrete chunk state for the C5 input: three entities 0,1,2 on rows
0,1,2, all enabled. -/
def c5chunk : ChunkC := ⟨3, 3, 0, [0, 1, 2]⟩

def c5ents : List EC := [⟨0, false⟩, ⟨1, false⟩, ⟨2, false⟩]

/-- The C5 failing sequence: disable row 0, disable row 1, then enable row 0
(the enabled entity's row is not adjacent to the partition boundary). -/
def c5run : ChunkC × List EC :=
  let r1 := enableEntityC c5chunk 0 false c5ents
  let r2 := enableEntityC r1.1 1 false r1.2
  enableEntityC r2.1 0 true r2.2

/-! ### Cluster D: entity allocation, deallocation and handle validity

Embedding of World::AllocateEntity (world.h:622), World::DeallocateEntity
(world.h:644), World::IsEntityValid (world.h:81) and World::DeleteEntity
(world.h:983).  Entity ids and generations are 24-bit per the spec's data
model (the entity header is not under src/); `chunkEntity` stands for
`pChunk ? pChunk->GetEntity(idx) : null`, which is all IsEntityValid reads
from the chunk. -/

/-- Modelled from the spec: entity id/generation are 24-bit fields (spec §3);
Entity::IdMask is the all-ones id, used as the free-list terminator. -/
def ENTITY_ID_MASK : Nat := 2 ^ 24 - 1

def ENTITY_GEN_MOD : Nat := 2 ^ 24

/-- A 64-bit entity handle reduced to the id/generation pair the world code
inspects. -/
structure EntityH where
  id : Nat
  gen : Nat
deriving DecidableEq

/-- Modelled from the spec: the null entity handle (entity header not under
src/): the reserved all-ones id. -/
def entityNull : EntityH := ⟨ENTITY_ID_MASK, 0⟩

/-- EntityContainer: recycle-list link / chunk row in `idx`, generation, and
the entity stored at the container's chunk position (none = pChunk null). -/
structure EContainer where
  idx : Nat
  gen : Nat
  chunkEntity : Option EntityH
deriving DecidableEq

instance : Inhabited EContainer := ⟨⟨0, 0, none⟩⟩

structure World6 where
  entities : List EContainer
  nextFreeEntity : Nat
  freeEntities : Nat
deriving DecidableEq

def initWorld6 : World6 := ⟨[], ENTITY_ID_MASK, 0⟩

/-- World::AllocateEntity: push a fresh zeroed container, or pop the head of
the implicit free list and hand back its stored generation. -/
def allocateEntity (w : World6) : World6 × EntityH :=
  if w.freeEntities = 0 then
    ({ w with entities := w.entities ++ [default] }, ⟨w.entities.length, 0⟩)
  else
    let index := w.nextFreeEntity
    let c := w.entities.getD index default
    ({ w with freeEntities := w.freeEntities - 1, nextFreeEntity := c.idx },
      ⟨index, c.gen⟩)

/-- World::DeallocateEntity: clear the chunk pointer, bump the generation
(24-bit), link the container into the free list and count it. -/
def deallocateEntity (w : World6) (e : EntityH) : World6 :=
  let c := w.entities.getD e.id default
  let gen := (c.gen + 1) % ENTITY_GEN_MOD
  if w.freeEntities = 0 then
    { entities := w.entities.set e.id ⟨ENTITY_ID_MASK, gen, none⟩,
      nextFreeEntity := e.id, freeEntities := 1 }
  else
    { entities := w.entities.set e.id ⟨w.nextFreeEntity, gen, none⟩,
      nextFreeEntity := e.id, freeEntities := w.freeEntities + 1 }

/-- World::IsEntityValid: id in range, generation matches, and when a chunk is
attached the chunk's entity cell must match the handle. -/
def isEntityValid (w : World6) (e : EntityH) : Bool :=
  if w.entities.length ≤ e.id then false
  else if (w.entities.getD e.id default).gen ≠ e.gen then false
  else
    match (w.entities.getD e.id default).chunkEntity with
    | none => true
    | some ce => ce = e

/-- World::DeleteEntity: the empty-table / null-handle branch returns
silently; otherwise the entity leaves its chunk (chunk bookkeeping modelled
in the GC cluster) and the container is deallocated in both branches. -/
def deleteEntity (w : World6) (e : EntityH) : World6 :=
  if w.entities.length = 0 ∨ e = entityNull then w
  else deallocateEntity w e

/-! ### Cluster E: change-version filters of query execution

Embedding of World::CheckFilters (world.h:1308), the chunk-selection logic of
World::RunQueryOnChunks_Direct (world.h:1340) and Chunk::DidChange
(src/unnamed/part_002:1719).  The query side (entity_query.h) is not under
src/: GetFiltered / HasFilters / CheckConstraints / Get-SetWorldVersion are
modelled from spec §4.5; DidVersionChange and UpdateVersion live in the
missing common header and are modelled from spec §5/§9 (32-bit wrap-around,
"(a - b) as signed > 0", versions start at 0 with the world at 1). -/

def U32 : Nat := 2 ^ 32

/-- Modelled from the spec (§9 version wrap-around): the stored version is
newer than the reference version when their 32-bit difference, read as a
signed integer, is positive. -/
def didVersionChange (changeVersion requiredVersion : Nat) : Bool :=
  let d := (changeVersion + U32 - requiredVersion % U32) % U32
  0 < d ∧ d < 2 ^ 31

/-- Modelled from the spec (§5/§9): bumping the world version, with 0 reserved
after wrap-around. -/
def updateVersion (v : Nat) : Nat :=
  let v2 := (v + 1) % U32
  if v2 = 0 then 1 else v2

/-- Chunk state seen by the filter logic: entity count, the disabled-chunk
flag, and per ComponentType the component typeIndex list with the parallel
version list. -/
structure QChunk where
  count : Nat
  disabled : Bool
  typeIdxG : List Nat
  versionsG : List Nat
  typeIdxC : List Nat
  versionsC : List Nat
deriving DecidableEq

/-- Chunk::GetComponentIdx: position of a component (by typeIndex) in the
chunk's component list. -/
def getComponentIdx (tis : List Nat) (ti : Nat) : Nat :=
  (findIdxP (fun x => x = ti) tis).getD tis.length

/-- Chunk::DidChange for the component at list position `ci`. -/
def didChange (versions : List Nat) (ci : Nat) (lastVersion : Nat) : Bool :=
  didVersionChange (versions.getD ci 0) lastVersion

/-- Enabled/disabled constraint of a query.  Modelled from the spec (§4.5):
CheckConstraints(enabled?) selects the enabled population, the disabled one,
or both. -/
inductive Constraints where
  | enabledOnly
  | disabledOnly
  | acceptAll
deriving DecidableEq

/-- Query state seen by the filter logic: change-filter lists per component
type (modelled from the spec; entity_query.h is not under src/), the
constraint mode and the recorded world version of the last run. -/
structure QueryM where
  filteredG : List Nat
  filteredC : List Nat
  constraints : Constraints
  worldVersion : Nat
deriving DecidableEq

def checkConstraints (q : QueryM) (enabled : Bool) : Bool :=
  match q.constraints with
  | .acceptAll => true
  | .enabledOnly => enabled
  | .disabledOnly => !enabled

def hasFilters (q : QueryM) : Bool :=
  !q.filteredG.isEmpty || !q.filteredC.isEmpty

/-- World::CheckFilters: the chunk passes when any filtered generic or chunk
component's stored version changed relative to the query's recorded world
version. -/
def checkFilters (q : QueryM) (c : QChunk) : Bool :=
  q.filteredG.any
      (fun ti => didChange c.versionsG (getComponentIdx c.typeIdxG ti) q.worldVersion)
    || q.filteredC.any
      (fun ti => didChange c.versionsC (getComponentIdx c.typeIdxC ti) q.worldVersion)

/-- Chunk-selection of World::RunQueryOnChunks_Direct: the world version is
bumped first; a chunk is handed to the functor iff it has entities, passes
the enabled/disabled constraint and (when the query has filters) passes
CheckFilters; finally the query records the new world version.  Returns the
new world version, the visited chunks in order, and the updated query. -/
def runQueryOnChunksDirect (worldVersion : Nat) (q : QueryM) (cs : List QChunk) :
    Nat × List QChunk × QueryM :=
  let wv2 := updateVersion worldVersion
  let visited := cs.filter (fun c =>
    (0 < c.count : Bool) && checkConstraints q (!c.disabled)
      && (!hasFilters q || checkFilters q c))
  (wv2, visited, { q with worldVersion := wv2 })

/-- Concrete query for the C7 witness: a change filter on the generic
component with typeIndex 4, recorded world version 5. -/
def q7 : QueryM := ⟨[4], [], .acceptAll, 5⟩

/-- Concrete chunk for the C7 witness: one entity, component 4 last written
at version 9. -/
def c7 : QChunk := ⟨1, false, [4], [9], [], []⟩

/-! ### Cluster F: QueryInfo::remove

Embedding of QueryInfo::remove (query_info.h:433) and
QueryInfo::del_archetype_from_cache (query_info.h:345).  The group-by
function is passed explicitly (the code reads it from the query context);
index arithmetic on the group ranges is uint32, so decrements wrap modulo
2^32. -/

def dec32 (x : Nat) : Nat := (x + (U32 - 1)) % U32

/-- GroupData from QueryInfo. -/
structure GroupData where
  groupId : Nat
  idxFirst : Nat
  idxLast : Nat
  needsSorting : Bool
deriving DecidableEq

instance : Inhabited GroupData := ⟨⟨0, 0, 0, false⟩⟩

/-- QueryInfo state touched by remove: the archetype cache (archetype ids),
the parallel cache data (reduced to the group id), the group ranges, whether
grouping is active (groupBy != EntityBad), and the two per-context
last-matched-archetype cursor maps. -/
structure QueryInfoM where
  cache : List Nat
  cacheData : List Nat
  groupData : List GroupData
  groupBy : Bool
  lastAll : List (Nat × Nat)
  lastAny : List (Nat × Nat)
deriving DecidableEq

/-- QueryInfo::del_archetype_from_cache: erase_fast both cache arrays; with
grouping active, find the group of the removed archetype, shift every later
group's range down by one, then shrink "the current group" — which the code
reads at position `idx` (the cache index), not `grpIdx` — or erase the group
at `grpIdx` when empty.  The unsigned range test `idxLast - idxFirst > 0` is
`idxLast ≠ idxFirst`. -/
def delArchetypeFromCache (gf : Nat → Nat) (qi : QueryInfoM) (idx : Nat) : QueryInfoM :=
  let aid := qi.cache.getD idx 0
  let cache2 := eraseFast qi.cache idx
  let cacheData2 := eraseFast qi.cacheData idx
  let groupData2 :=
    if qi.groupBy then
      match findIdxP (fun g => g.groupId = gf aid) qi.groupData with
      | none => qi.groupData
      | some grpIdx =>
        let gd := qi.groupData.mapIdx (fun j g =>
          if grpIdx + 1 ≤ j then
            { g with idxFirst := dec32 g.idxFirst, idxLast := dec32 g.idxLast }
          else g)
        let currGrp := gd.getD idx default
        if currGrp.idxLast ≠ currGrp.idxFirst then
          gd.set idx { currGrp with idxLast := currGrp.idxLast - 1 }
        else gd.eraseIdx grpIdx
    else qi.groupData
  { qi with cache := cache2, cacheData := cacheData2, groupData := groupData2 }

/-- QueryInfo::remove: a missing archetype is a no-op; otherwise the cache
entry is removed and every positive last-matched cursor is decremented. -/
def removeQI (gf : Nat → Nat) (qi : QueryInfoM) (aid : Nat) : QueryInfoM :=
  match findIdxP (fun x => x = aid) qi.cache with
  | none => qi
  | some idx =>
    let qi2 := delArchetypeFromCache gf qi idx
    let dec := fun (p : Nat × Nat) => (p.1, if 0 < p.2 then p.2 - 1 else p.2)
    { qi2 with lastAll := qi2.lastAll.map dec, lastAny := qi2.lastAny.map dec }

/-- Group-by function for the C8 input: archetypes 12,13 belong to group 2,
archetypes 10,11 to group 1. -/
def gf8 (aid : Nat) : Nat := if 12 ≤ aid then 2 else 1

/-- QueryInfo cache for the C8 input: four archetypes, group 1 covering cache
positions 0..1 and group 2 covering positions 2..3, one positive cursor. -/
def qi8 : QueryInfoM :=
  ⟨[10, 11, 12, 13], [1, 1, 2, 2],
    [⟨1, 0, 1, false⟩, ⟨2, 2, 3, false⟩], true, [(7, 3)], []⟩

/-! ## Theorems -/

/-! ### List helpers -/

theorem getD_set_self (l : List α) (i : Nat) (a d : α) (h : i < l.length) :
    (l.set i a).getD i d = a := by
  rw [List.getD_eq_getElem?_getD, List.getElem?_set_eq_of_lt a h]
  rfl

theorem getD_set_ne (l : List α) (i j : Nat) (a d : α) (h : i ≠ j) :
    (l.set i a).getD j d = l.getD j d := by
  rw [List.getD_eq_getElem?_getD, List.getElem?_set_ne h, ← List.getD_eq_getElem?_getD]

theorem getD_append_lt (l l2 : List α) (i : Nat) (d : α) (h : i < l.length) :
    (l ++ l2).getD i d = l.getD i d := by
  rw [List.getD_eq_getElem?_getD, List.getD_eq_getElem?_getD,
    List.getElem?_append_left h]

theorem getD_append_len (l : List α) (a d : α) : (l ++ [a]).getD l.length d = a := by
  rw [List.getD_eq_getElem?_getD, List.getElem?_append_right (Nat.le_refl _)]
  simp

theorem getD_len_le (l : List α) (i : Nat) (d : α) (h : l.length ≤ i) :
    l.getD i d = d := by
  rw [List.getD_eq_getElem?_getD, List.getElem?_eq_none h]
  rfl

theorem getD_some_lt (l : List (Option α)) (i : Nat) (a : α)
    (h : l.getD i none = some a) : i < l.length := by
  by_contra hge
  rw [getD_len_le l i none (by omega)] at h
  exact Option.noConfusion h

theorem findIdxP_lt_length (p : α → Bool) (l : List α) (i : Nat)
    (h : findIdxP p l = some i) : i < l.length := by
  induction l generalizing i with
  | nil => exact absurd h (by simp [findIdxP])
  | cons a as ih =>
    rw [findIdxP] at h
    by_cases hp : p a
    · rw [if_pos hp] at h
      injection h with h
      subst h
      simp
    · rw [if_neg hp] at h
      cases hj : findIdxP p as with
      | none => rw [hj] at h; exact absurd h (by simp)
      | some j =>
        rw [hj] at h
        simp only [Option.map_some'] at h
        injection h with h
        subst h
        have := ih j hj
        simp only [List.length_cons]
        omega

theorem findIdxP_spec (p : α → Bool) (l : List α) (i : Nat) (d : α)
    (h : findIdxP p l = some i) : p (l.getD i d) = true := by
  induction l generalizing i with
  | nil => exact absurd h (by simp [findIdxP])
  | cons a as ih =>
    rw [findIdxP] at h
    by_cases hp : p a
    · rw [if_pos hp] at h
      injection h with h
      subst h
      simpa [List.getD] using hp
    · rw [if_neg hp] at h
      cases hj : findIdxP p as with
      | none => rw [hj] at h; exact absurd h (by simp)
      | some j =>
        rw [hj] at h
        simp only [Option.map_some'] at h
        injection h with h
        subst h
        simpa [List.getD] using ih j hj

theorem getD_setChunk_self (cs : ChunkStore) (i : Nat) (c : GChunk)
    (h : i < cs.length) : (setChunk cs i c).getD i none = some c :=
  getD_set_self cs i (some c) none h

theorem getD_setChunk_ne (cs : ChunkStore) (i j : Nat) (c : GChunk)
    (h : i ≠ j) : (setChunk cs i c).getD j none = cs.getD j none :=
  getD_set_ne cs i j (some c) none h

/-! ### C9: DeleteEntity error branch -/

/-- C9: calling DeleteEntity with the null entity handle, or on a world whose
entity table is empty, returns without modifying any state; the error branch
is a silent no-op at the public interface. -/
theorem delete_null_or_empty_is_noop (w : World6) (e : EntityH)
    (h : w.entities = [] ∨ e = entityNull) : deleteEntity w e = w := by
  unfold deleteEntity
  rcases h with h | h
  · rw [if_pos (Or.inl (by rw [h]; rfl))]
  · rw [if_pos (Or.inr h)]

theorem delete_null_or_empty_is_noop_witness :
    ((⟨[⟨0, 0, none⟩], ENTITY_ID_MASK, 0⟩ : World6).entities = [] ∨
        entityNull = entityNull) ∧
      deleteEntity ⟨[⟨0, 0, none⟩], ENTITY_ID_MASK, 0⟩ entityNull =
        ⟨[⟨0, 0, none⟩], ENTITY_ID_MASK, 0⟩ :=
  ⟨Or.inr rfl, delete_null_or_empty_is_noop _ _ (Or.inr rfl)⟩

/-! ### C10: the pending-removal list holds each chunk at most once -/

theorem inv2_init : Inv2 initWorld2 := by
  constructor
  · exact List.nodup_nil
  · intro cid hcid
    simp [initWorld2] at hcid

theorem inv2_newChunk (w : World2) (h : Inv2 w) : Inv2 (newChunkOp w) := by
  obtain ⟨hnd, hmem⟩ := h
  refine ⟨hnd, ?_⟩
  intro cid hcid
  obtain ⟨c, hc, hl⟩ := hmem cid hcid
  refine ⟨c, ?_, hl⟩
  have := getD_some_lt w.chunks cid c hc
  rw [show (newChunkOp w).chunks = w.chunks ++ [some default] from rfl,
    getD_append_lt _ _ _ _ this]
  exact hc

theorem inv2_addEntity (w : World2) (cid2 : Nat) (h : Inv2 w) :
    Inv2 (addEntityOp w cid2) := by
  obtain ⟨hnd, hmem⟩ := h
  unfold addEntityOp
  split
  · exact ⟨hnd, hmem⟩
  · rename_i c hx
    refine ⟨hnd, ?_⟩
    intro cid hcid
    obtain ⟨c0, hc0, hl0⟩ := hmem cid hcid
    by_cases hceq : cid = cid2
    · subst hceq
      have hcc : c0 = c := by
        rw [hc0] at hx
        exact Option.some.inj hx
      subst hcc
      exact ⟨⟨c0.count + 1, c0.lifespan⟩,
        getD_setChunk_self _ _ _ (getD_some_lt _ _ _ hc0), hl0⟩
    · exact ⟨c0, by
        rw [getD_setChunk_ne _ _ _ _ (fun hh => hceq hh.symm)]; exact hc0, hl0⟩

theorem inv2_removeEntity (w : World2) (cid2 : Nat) (h : Inv2 w) :
    Inv2 (removeEntityOp w cid2) := by
  obtain ⟨hnd, hmem⟩ := h
  unfold removeEntityOp
  split
  · exact ⟨hnd, hmem⟩
  · rename_i c hx
    have hlen : cid2 < w.chunks.length := getD_some_lt _ _ _ hx
    have hc1l : (chunkAfterRemove c).lifespan = c.lifespan := by
      unfold chunkAfterRemove
      split <;> rfl
    split
    · rename_i hcond
      refine ⟨hnd, ?_⟩
      intro cid hcid
      obtain ⟨c0, hc0, hl0⟩ := hmem cid hcid
      by_cases hceq : cid = cid2
      · subst hceq
        refine ⟨chunkAfterRemove c, getD_setChunk_self _ _ _ hlen, ?_⟩
        rw [hc0] at hx
        cases hx
        rw [hc1l]
        exact hl0
      · exact ⟨c0, by
          rw [getD_setChunk_ne _ _ _ _ (fun hh => hceq hh.symm)]; exact hc0, hl0⟩
    · rename_i hcond
      have hnotmem : cid2 ∉ w.toRemove := by
        intro hin
        obtain ⟨c0, hc0, hl0⟩ := hmem cid2 hin
        rw [hc0] at hx
        cases hx
        rw [← hc1l] at hl0
        exact hcond (Or.inl hl0)
      constructor
      · simpa [List.nodup_append] using ⟨hnd, hnotmem⟩
      · intro cid hcid
        simp only [List.mem_append, List.mem_singleton] at hcid
        rcases hcid with hcid | rfl
        · obtain ⟨c0, hc0, hl0⟩ := hmem cid hcid
          have hne : cid ≠ cid2 := fun hh => hnotmem (hh ▸ hcid)
          refine ⟨c0, ?_, hl0⟩
          rw [getD_setChunk_ne _ _ _ _ (fun hh => hne hh.symm),
            getD_setChunk_ne _ _ _ _ (fun hh => hne hh.symm)]
          exact hc0
        · refine ⟨⟨(chunkAfterRemove c).count, MAX_CHUNK_LIFESPAN⟩, ?_,
            by simp [MAX_CHUNK_LIFESPAN]⟩
          exact getD_setChunk_self _ _ _ (by simpa [setChunk] using hlen)

theorem inv2_gc (w : World2) : Inv2 (gcOp w) := by
  constructor
  · exact List.nodup_nil
  · intro cid hcid
    simp [gcOp] at hcid

theorem reachable2_inv (w : World2) (h : Reachable2 w) : Inv2 w := by
  induction h with
  | init => exact inv2_init
  | newChunk _ ih => exact inv2_newChunk _ ih
  | addEntity cid _ ih => exact inv2_addEntity _ cid ih
  | removeEntity cid _ ih => exact inv2_removeEntity _ cid ih
  | gc _ _ => exact inv2_gc _

/-- C10: in every reachable world state any given chunk appears at most once
in the pending-removal list; a chunk is appended only when it becomes empty
with a zero countdown, appending sets the countdown to MAX_CHUNK_LIFESPAN,
and a chunk emptied again while its countdown is positive is skipped. -/
theorem chunks_to_remove_nodup (w : World2) (h : Reachable2 w) :
    w.toRemove.Nodup ∧ ∀ cid ∈ w.toRemove,
      ∃ c, w.chunks.getD cid none = some c ∧ 0 < c.lifespan :=
  reachable2_inv w h

theorem chunks_to_remove_nodup_witness :
    Reachable2 w3c ∧ w3c.toRemove.Nodup :=
  ⟨Reachable2.removeEntity 0 (Reachable2.addEntity 0 (Reachable2.newChunk Reachable2.init)),
    (chunks_to_remove_nodup w3c
      (Reachable2.removeEntity 0 (Reachable2.addEntity 0
        (Reachable2.newChunk Reachable2.init)))).1⟩

/-! ### Cluster A lemmas: component types, archetype accessors, registration -/

theorem CompType.other_other (ct : CompType) : ct.other.other = ct := by
  cases ct <;> rfl

theorem CompType.eq_or_eq_other (ct2 ct : CompType) : ct2 = ct ∨ ct2 = ct.other := by
  cases ct2 <;> cases ct <;> simp [CompType.other]

theorem compsOf_both_empty (a : ArchetypeM) (ct : CompType)
    (h1 : a.compsOf ct = []) (h2 : a.compsOf ct.other = []) :
    a.compsG = [] ∧ a.compsC = [] := by
  cases ct
  · exact ⟨h1, h2⟩
  · exact ⟨h2, h1⟩

theorem mkArch_compsOf_self (ct : CompType) (own other : List Nat)
    (dels : List GraphEdge) : (mkArch ct own other dels).compsOf ct = own := by
  cases ct <;> rfl

theorem mkArch_compsOf_other (ct : CompType) (own other : List Nat)
    (dels : List GraphEdge) : (mkArch ct own other dels).compsOf ct.other = other := by
  cases ct <;> rfl

theorem mkArch_edgesAddOf (ct ct2 : CompType) (own other : List Nat)
    (dels : List GraphEdge) : (mkArch ct own other dels).edgesAddOf ct2 = [] := by
  cases ct <;> cases ct2 <;> rfl

theorem mkArch_edgesDelOf_self (ct : CompType) (own other : List Nat)
    (dels : List GraphEdge) : (mkArch ct own other dels).edgesDelOf ct = dels := by
  cases ct <;> rfl

theorem mkArch_edgesDelOf_other (ct : CompType) (own other : List Nat)
    (dels : List GraphEdge) : (mkArch ct own other dels).edgesDelOf ct.other = [] := by
  cases ct <;> rfl

theorem pushAddEdge_edgesAddOf_self (a : ArchetypeM) (ct : CompType) (e : GraphEdge) :
    (a.pushAddEdge ct e).edgesAddOf ct = a.edgesAddOf ct ++ [e] := by
  cases ct <;> rfl

theorem pushAddEdge_edgesAddOf_mem (a : ArchetypeM) (ct ct2 : CompType)
    (e ed : GraphEdge) (h : ed ∈ (a.pushAddEdge ct e).edgesAddOf ct2) :
    ed ∈ a.edgesAddOf ct2 ∨ (ct2 = ct ∧ ed = e) := by
  cases ct <;> cases ct2 <;> simp [ArchetypeM.pushAddEdge, ArchetypeM.edgesAddOf] at h ⊢ <;>
    tauto

theorem pushAddEdge_edgesDelOf (a : ArchetypeM) (ct ct2 : CompType) (e : GraphEdge) :
    (a.pushAddEdge ct e).edgesDelOf ct2 = a.edgesDelOf ct2 := by
  cases ct <;> cases ct2 <;> rfl

theorem pushAddEdge_compsOf (a : ArchetypeM) (ct ct2 : CompType) (e : GraphEdge) :
    (a.pushAddEdge ct e).compsOf ct2 = a.compsOf ct2 := by
  cases ct <;> cases ct2 <;> rfl

theorem pushAddEdge_compsG (a : ArchetypeM) (ct : CompType) (e : GraphEdge) :
    (a.pushAddEdge ct e).compsG = a.compsG := by
  cases ct <;> rfl

theorem pushAddEdge_compsC (a : ArchetypeM) (ct : CompType) (e : GraphEdge) :
    (a.pushAddEdge ct e).compsC = a.compsC := by
  cases ct <;> rfl

theorem sortNats_length (l : List Nat) : (sortNats l).length = l.length :=
  (List.perm_insertionSort (· ≤ ·) l).length_eq

theorem sortNats_ne_nil (l : List Nat) (a : Nat) : sortNats (l ++ [a]) ≠ [] := by
  intro h
  have := sortNats_length (l ++ [a])
  rw [h] at this
  simp at this

/-- RegisterFromNode bookkeeping: the new archetype's id, the grown registry,
the new archetype's contents, the updated node, the untouched rest, and the
untouched entity table. -/
theorem registerFromNode_getA (w : WorldA) (node : Nat) (ct : CompType) (t : Nat)
    (hnode : node < w.archetypes.length) :
    (registerFromNode w node ct t).2 = w.archetypes.length ∧
      (registerFromNode w node ct t).1.archetypes.length = w.archetypes.length + 1 ∧
      getA (registerFromNode w node ct t).1 w.archetypes.length
        = mkArch ct (sortNats ((getA w node).compsOf ct ++ [t]))
            ((getA w node).compsOf ct.other) [⟨t, node⟩] ∧
      getA (registerFromNode w node ct t).1 node
        = (getA w node).pushAddEdge ct ⟨t, w.archetypes.length⟩ ∧
      (∀ i, i ≠ node → i ≠ w.archetypes.length →
        getA (registerFromNode w node ct t).1 i = getA w i) ∧
      (registerFromNode w node ct t).1.entityArch = w.entityArch := by
  refine ⟨rfl, ?_, ?_, ?_, ?_, rfl⟩
  · show ((w.archetypes ++ [_]).set node _).length = w.archetypes.length + 1
    simp
  · show ((w.archetypes ++ [_]).set node _).getD w.archetypes.length emptyArch = _
    rw [getD_set_ne _ _ _ _ _ (by omega), getD_append_len]
  · show ((w.archetypes ++ [_]).set node _).getD node emptyArch = _
    rw [getD_set_self _ _ _ _ (by simp; omega)]
  · intro i hin hil
    show ((w.archetypes ++ [_]).set node _).getD i emptyArch = _
    rw [getD_set_ne _ _ _ _ _ (fun hh => hin hh.symm)]
    by_cases hlt : i < w.archetypes.length
    · exact getD_append_lt _ _ _ _ hlt
    · rw [getD_len_le _ _ _ (by simp; omega)]
      symm
      unfold getA
      exact getD_len_le _ _ _ (by omega)

theorem registerRootSingle_getA (w : WorldA) (ct : CompType) (t : Nat) :
    (registerRootSingle w ct t).2 = w.archetypes.length ∧
      (registerRootSingle w ct t).1.archetypes.length = w.archetypes.length + 1 ∧
      getA (registerRootSingle w ct t).1 w.archetypes.length
        = mkArch ct [t] [] [⟨t, 0⟩] ∧
      (∀ i, i ≠ w.archetypes.length →
        getA (registerRootSingle w ct t).1 i = getA w i) ∧
      (registerRootSingle w ct t).1.entityArch = w.entityArch := by
  refine ⟨rfl, by simp [registerRootSingle], ?_, ?_, rfl⟩
  · show (w.archetypes ++ [_]).getD w.archetypes.length emptyArch = _
    rw [getD_append_len]
  · intro i hil
    show (w.archetypes ++ [_]).getD i emptyArch = _
    by_cases hlt : i < w.archetypes.length
    · exact getD_append_lt _ _ _ _ hlt
    · rw [getD_len_le _ _ _ (by simp; omega)]
      symm
      unfold getA
      exact getD_len_le _ _ _ (by omega)

/-- Creating and registering an archetype from a non-root node keeps the
registry and graph well-formed. -/
theorem WFA_registerFromNode (w : WorldA) (node : Nat) (ct : CompType) (t : Nat)
    (hWF : WFA w) (h0 : node ≠ 0) (hn : node < w.archetypes.length) :
    WFA (registerFromNode w node ct t).1 := by
  obtain ⟨hid, hlen, hnew, hnodeA, hrest, hent⟩ := registerFromNode_getA w node ct t hn
  have hroot0 : 0 < w.archetypes.length := hWF.rootExists
  have harch : ∀ j, j ≠ w.archetypes.length → ∀ ct2,
      (getA (registerFromNode w node ct t).1 j).edgesDelOf ct2
          = (getA w j).edgesDelOf ct2 ∧
        (getA (registerFromNode w node ct t).1 j).compsOf ct2
          = (getA w j).compsOf ct2 ∧
        (getA (registerFromNode w node ct t).1 j).compsG = (getA w j).compsG ∧
        (getA (registerFromNode w node ct t).1 j).compsC = (getA w j).compsC := by
    intro j hj ct2
    by_cases hjn : j = node
    · subst hjn
      rw [hnodeA]
      exact ⟨pushAddEdge_edgesDelOf _ _ _ _, pushAddEdge_compsOf _ _ _ _,
        pushAddEdge_compsG _ _ _, pushAddEdge_compsC _ _ _⟩
    · rw [hrest j hjn hj]
      exact ⟨rfl, rfl, rfl, rfl⟩
  have haddmem : ∀ j ct2 ed,
      ed ∈ (getA (registerFromNode w node ct t).1 j).edgesAddOf ct2 →
      (ed ∈ (getA w j).edgesAddOf ct2 ∨
        (j = node ∧ ct2 = ct ∧ ed = ⟨t, w.archetypes.length⟩)) := by
    intro j ct2 ed hed
    by_cases hjl : j = w.archetypes.length
    · subst hjl
      rw [hnew, mkArch_edgesAddOf] at hed
      exact absurd hed (List.not_mem_nil _)
    · by_cases hjn : j = node
      · subst hjn
        rw [hnodeA] at hed
        rcases pushAddEdge_edgesAddOf_mem _ _ _ _ _ hed with h | ⟨hc, he⟩
        · exact Or.inl h
        · exact Or.inr ⟨rfl, hc, he⟩
      · rw [hrest j hjn hjl] at hed
        exact Or.inl hed
  refine ⟨?_, ?_, ?_, ?_, ?_, ?_, ?_, ?_, ?_⟩
  · omega
  · have h0l : (0 : Nat) ≠ w.archetypes.length := by omega
    obtain ⟨_, _, hG, hC⟩ := harch 0 h0l CompType.generic
    rw [hG, hC]
    exact hWF.rootComps
  · intro i ct2 e he
    rcases haddmem i ct2 e he with h | ⟨_, _, hee⟩
    · exact ⟨by have := (hWF.addValid i ct2 e h).1; omega, (hWF.addValid i ct2 e h).2⟩
    · subst hee
      exact ⟨by show w.archetypes.length < _; omega, by show 0 < w.archetypes.length; omega⟩
  · intro i ct2 e he
    by_cases hil : i = w.archetypes.length
    · subst hil
      rw [hnew] at he
      rcases CompType.eq_or_eq_other ct2 ct with hc | hc
      · subst hc
        rw [mkArch_edgesDelOf_self] at he
        have : e = ⟨t, node⟩ := by simpa using he
        subst this
        show node < _
        omega
      · subst hc
        rw [mkArch_edgesDelOf_other] at he
        exact absurd he (List.not_mem_nil _)
    · rw [(harch i hil ct2).1] at he
      have := hWF.delValid i ct2 e he
      omega
  · intro i ct2 e he
    rcases haddmem i ct2 e he with h | ⟨hin, hct, hee⟩
    · have hp := hWF.pairing i ct2 e h
      have hv := hWF.addValid i ct2 e h
      have hne : e.archetype ≠ w.archetypes.length := by omega
      rw [(harch e.archetype hne ct2).1]
      exact hp
    · subst hin
      subst hct
      subst hee
      rw [show ((⟨t, w.archetypes.length⟩ : GraphEdge)).archetype
          = w.archetypes.length from rfl,
        hnew, mkArch_edgesDelOf_self]
      simp
  · intro i ct2
    by_cases hil : i = w.archetypes.length
    · subst hil
      rw [hnew]
      rcases CompType.eq_or_eq_other ct2 ct with hc | hc
      · rw [hc, mkArch_edgesDelOf_self]
        simp
      · rw [hc, mkArch_edgesDelOf_other]
        simp
    · rw [(harch i hil ct2).1]
      exact hWF.delNodup i ct2
  · intro i ct2 x h0i hilen hcomps hother
    by_cases hil : i = w.archetypes.length
    · exfalso
      subst hil
      rcases CompType.eq_or_eq_other ct2 ct with hc | hc
      · subst hc
        rw [hnew, mkArch_compsOf_self] at hcomps
        rw [hnew, mkArch_compsOf_other] at hother
        have hlen1 : ((getA w node).compsOf ct2).length + 1 = 1 := by
          have := sortNats_length ((getA w node).compsOf ct2 ++ [t])
          rw [hcomps] at this
          simpa using this.symm
        have hcnil : (getA w node).compsOf ct2 = [] := by
          cases hx : (getA w node).compsOf ct2
          · rfl
          · rw [hx] at hlen1
            simp at hlen1
        have hboth := compsOf_both_empty (getA w node) ct2 hcnil hother
        rcases hWF.nonempty node (by omega) hn with hne | hne
        · exact hne hboth.1
        · exact hne hboth.2
      · subst hc
        rw [hnew, CompType.other_other, mkArch_compsOf_self] at hother
        exact sortNats_ne_nil _ _ hother
    · rw [(harch i hil ct2).2.1] at hcomps
      rw [(harch i hil ct2.other).2.1] at hother
      have hs := hWF.singleDel i ct2 x h0i (by omega) hcomps hother
      rw [(harch i hil ct2).1]
      exact hs
  · intro i h0i hilen
    by_cases hil : i = w.archetypes.length
    · subst hil
      rw [hnew]
      cases ct
      · exact Or.inl (sortNats_ne_nil _ _)
      · exact Or.inr (sortNats_ne_nil _ _)
    · obtain ⟨_, _, hG, hC⟩ := harch i hil CompType.generic
      rw [hG, hC]
      exact hWF.nonempty i h0i (by omega)
  · intro e a hea
    rw [hent] at hea
    have := hWF.entValid e a hea
    omega

/-- Creating and registering the single-component archetype from the root
keeps the registry and graph well-formed. -/
theorem WFA_registerRootSingle (w : WorldA) (ct : CompType) (t : Nat)
    (hWF : WFA w) : WFA (registerRootSingle w ct t).1 := by
  obtain ⟨hid, hlen, hnew, hrest, hent⟩ := registerRootSingle_getA w ct t
  have hroot0 : 0 < w.archetypes.length := hWF.rootExists
  refine ⟨?_, ?_, ?_, ?_, ?_, ?_, ?_, ?_, ?_⟩
  · omega
  · rw [hrest 0 (by omega)]
    exact hWF.rootComps
  · intro i ct2 e he
    by_cases hil : i = w.archetypes.length
    · subst hil
      rw [hnew, mkArch_edgesAddOf] at he
      exact absurd he (List.not_mem_nil _)
    · rw [hrest i hil] at he
      exact ⟨by have := (hWF.addValid i ct2 e he).1; omega, (hWF.addValid i ct2 e he).2⟩
  · intro i ct2 e he
    by_cases hil : i = w.archetypes.length
    · subst hil
      rw [hnew] at he
      rcases CompType.eq_or_eq_other ct2 ct with hc | hc
      · subst hc
        rw [mkArch_edgesDelOf_self] at he
        have : e = ⟨t, 0⟩ := by simpa using he
        subst this
        show (0 : Nat) < _
        omega
      · subst hc
        rw [mkArch_edgesDelOf_other] at he
        exact absurd he (List.not_mem_nil _)
    · rw [hrest i hil] at he
      have := hWF.delValid i ct2 e he
      omega
  · intro i ct2 e he
    by_cases hil : i = w.archetypes.length
    · subst hil
      rw [hnew, mkArch_edgesAddOf] at he
      exact absurd he (List.not_mem_nil _)
    · rw [hrest i hil] at he
      have hp := hWF.pairing i ct2 e he
      have hv := hWF.addValid i ct2 e he
      rw [hrest e.archetype (by omega)]
      exact hp
  · intro i ct2
    by_cases hil : i = w.archetypes.length
    · subst hil
      rw [hnew]
      rcases CompType.eq_or_eq_other ct2 ct with hc | hc
      · rw [hc, mkArch_edgesDelOf_self]
        simp
      · rw [hc, mkArch_edgesDelOf_other]
        simp
    · rw [hrest i hil]
      exact hWF.delNodup i ct2
  · intro i ct2 x h0i hilen hcomps hother
    by_cases hil : i = w.archetypes.length
    · subst hil
      rcases CompType.eq_or_eq_other ct2 ct with hc | hc
      · subst hc
        rw [hnew, mkArch_compsOf_self] at hcomps
        rw [hnew, mkArch_edgesDelOf_self]
        have : x = t := by
          have := List.head_eq_of_cons_eq hcomps.symm  -- [t] = [x]
          omega
        subst this
        simp
      · exfalso
        subst hc
        rw [hnew, mkArch_compsOf_other] at hcomps
        exact List.noConfusion hcomps
    · rw [hrest i hil] at hcomps hother
      have hs := hWF.singleDel i ct2 x h0i (by omega) hcomps hother
      rw [hrest i hil]
      exact hs
  · intro i h0i hilen
    by_cases hil : i = w.archetypes.length
    · subst hil
      rw [hnew]
      cases ct
      · exact Or.inl (by simp [mkArch])
      · exact Or.inr (by simp [mkArch])
    · rw [hrest i hil]
      exact hWF.nonempty i h0i (by omega)
  · intro e a hea
    rw [hent] at hea
    have := hWF.entValid e a hea
    omega

theorem rootComps_of (w : WorldA) (hWF : WFA w) (ct : CompType) :
    (getA w 0).compsOf ct = [] := by
  obtain ⟨hg, hc⟩ := hWF.rootComps
  cases ct
  · exact hg
  · exact hc

theorem findEdgeAdd_some (a : ArchetypeM) (ct : CompType) (t : Nat) (e : GraphEdge)
    (h : findEdgeAdd a ct t = some e) : e ∈ a.edgesAddOf ct ∧ e.info = t := by
  unfold findEdgeAdd at h
  exact ⟨List.mem_of_find?_eq_some h, by simpa using List.find?_some h⟩

theorem findDelEdge_some (a : ArchetypeM) (ct : CompType) (t : Nat) (b : Nat)
    (h : findDelEdgeArchetype a ct t = some b) :
    ∃ ed ∈ a.edgesDelOf ct, ed.archetype = b ∧ ed.info = t := by
  unfold findDelEdgeArchetype at h
  cases hf : (a.edgesDelOf ct).find? (fun e => e.info = t) with
  | none =>
    rw [hf] at h
    exact absurd h (by simp)
  | some ed =>
    rw [hf] at h
    simp only [Option.map_some'] at h
    exact ⟨ed, List.mem_of_find?_eq_some hf, Option.some.inj h,
      by simpa using List.find?_some hf⟩

/-- The del-edge maps are functional: a recorded inverse edge is exactly what
FindDelEdgeArchetype returns. -/
theorem find_del_of_mem_nodup (l : List GraphEdge) (t A : Nat)
    (hmem : (⟨t, A⟩ : GraphEdge) ∈ l) (hnd : (l.map GraphEdge.info).Nodup) :
    (l.find? (fun e => e.info = t)).map (fun e => e.archetype) = some A := by
  induction l with
  | nil => exact absurd hmem (List.not_mem_nil _)
  | cons e0 es ih =>
    by_cases hp : e0.info = t
    · rw [List.find?_cons_of_pos _ (by simpa using hp)]
      rcases List.mem_cons.mp hmem with he | he
      · rw [← he]
        rfl
      · exfalso
        have hin : t ∈ es.map GraphEdge.info := List.mem_map.mpr ⟨⟨t, A⟩, he, rfl⟩
        have hnd2 := List.nodup_cons.mp hnd
        rw [hp] at hnd2
        exact hnd2.1 hin
    · rw [List.find?_cons_of_neg _ (by simpa using hp)]
      rcases List.mem_cons.mp hmem with he | he
      · exact absurd (congrArg GraphEdge.info he.symm) hp
      · exact ih he (List.nodup_cons.mp hnd).2

/-- Unfolding of FindOrCreateArchetype for a single added component: an
existing edge is followed; otherwise (from the root through the hash lookup,
from anywhere else directly) the target archetype is created and
registered. -/
theorem focAdd_single_eq (w : WorldA) (A : Nat) (ct : CompType) (t : Nat) :
    findOrCreateArchetypeAdd w A ct [t] =
      if A = 0 then
        match findArchetypeSingle w ct t with
        | some b => (w, b)
        | none => registerRootSingle w ct t
      else
        match findEdgeAdd (getA w A) ct t with
        | some e => (w, e.archetype)
        | none => registerFromNode w A ct t := by
  unfold findOrCreateArchetypeAdd
  by_cases hA0 : A = 0
  · rw [if_pos hA0, if_pos hA0]
    show (match findArchetypeSingle w ct t with
      | some b => focAddLoop w b ct []
      | none => focAddLoop (registerRootSingle w ct t).1
          (registerRootSingle w ct t).2 ct []) = _
    cases findArchetypeSingle w ct t <;> rfl
  · rw [if_neg hA0, if_neg hA0]
    show focAddLoop w A ct [t] = _
    show (match findEdgeAdd (getA w A) ct t with
      | some e => focAddLoop w e.archetype ct []
      | none => focAddLoop (registerFromNode w A ct t).1
          (registerFromNode w A ct t).2 ct []) = _
    cases findEdgeAdd (getA w A) ct t <;> rfl

theorem focAdd_root_found (w : WorldA) (ct : CompType) (t b : Nat)
    (h : findArchetypeSingle w ct t = some b) :
    findOrCreateArchetypeAdd w 0 ct [t] = (w, b) := by
  rw [focAdd_single_eq, if_pos rfl, h]

theorem focAdd_root_new (w : WorldA) (ct : CompType) (t : Nat)
    (h : findArchetypeSingle w ct t = none) :
    findOrCreateArchetypeAdd w 0 ct [t] = registerRootSingle w ct t := by
  rw [focAdd_single_eq, if_pos rfl, h]

theorem focAdd_edge_found (w : WorldA) (A : Nat) (ct : CompType) (t : Nat)
    (e : GraphEdge) (hA0 : A ≠ 0) (h : findEdgeAdd (getA w A) ct t = some e) :
    findOrCreateArchetypeAdd w A ct [t] = (w, e.archetype) := by
  rw [focAdd_single_eq, if_neg hA0, h]

theorem focAdd_edge_new (w : WorldA) (A : Nat) (ct : CompType) (t : Nat)
    (hA0 : A ≠ 0) (h : findEdgeAdd (getA w A) ct t = none) :
    findOrCreateArchetypeAdd w A ct [t] = registerFromNode w A ct t := by
  rw [focAdd_single_eq, if_neg hA0, h]

/-- Adding one component from archetype A yields a world and target archetype
B such that B's del edge on the component leads straight back to A; the
registry stays well-formed and only grows, and the entity table is
untouched. -/
theorem focAdd_single (w : WorldA) (A : Nat) (ct : CompType) (t : Nat)
    (hWF : WFA w) (hA : A < w.archetypes.length) :
    WFA (findOrCreateArchetypeAdd w A ct [t]).1 ∧
      (findOrCreateArchetypeAdd w A ct [t]).2
        < (findOrCreateArchetypeAdd w A ct [t]).1.archetypes.length ∧
      findDelEdgeArchetype
          (getA (findOrCreateArchetypeAdd w A ct [t]).1
            (findOrCreateArchetypeAdd w A ct [t]).2) ct t = some A ∧
      (findOrCreateArchetypeAdd w A ct [t]).1.entityArch = w.entityArch ∧
      w.archetypes.length ≤ (findOrCreateArchetypeAdd w A ct [t]).1.archetypes.length := by
  by_cases hA0 : A = 0
  · subst hA0
    cases hfs : findArchetypeSingle w ct t with
    | some b =>
      rw [focAdd_root_found w ct t b hfs]
      have hb : b < w.archetypes.length := findIdxP_lt_length _ _ _ hfs
      have hspec := findIdxP_spec _ _ _ emptyArch hfs
      simp only [Bool.and_eq_true, beq_iff_eq] at hspec
      obtain ⟨hc1, hc2⟩ := hspec
      have hbne : b ≠ 0 := by
        intro hb0
        rw [hb0] at hc1
        rw [show (w.archetypes.getD 0 emptyArch) = getA w 0 from rfl,
          rootComps_of w hWF ct] at hc1
        exact List.noConfusion hc1
      have hmem := hWF.singleDel b ct t (Nat.pos_of_ne_zero hbne) hb hc1 hc2
      have hfind := find_del_of_mem_nodup _ t 0 hmem (hWF.delNodup b ct)
      exact ⟨hWF, hb, hfind, rfl, Nat.le_refl _⟩
    | none =>
      rw [focAdd_root_new w ct t hfs]
      obtain ⟨hid, hlen, hnew, hrest, hent⟩ := registerRootSingle_getA w ct t
      refine ⟨WFA_registerRootSingle w ct t hWF, by omega, ?_, hent, by omega⟩
      rw [hid, hnew]
      unfold findDelEdgeArchetype
      rw [mkArch_edgesDelOf_self, List.find?_cons_of_pos _ (by simp)]
      rfl
  · cases hfe : findEdgeAdd (getA w A) ct t with
    | some e =>
      rw [focAdd_edge_found w A ct t e hA0 hfe]
      obtain ⟨hmem, hinfo⟩ := findEdgeAdd_some _ _ _ _ hfe
      have hv := hWF.addValid A ct e hmem
      have hp := hWF.pairing A ct e hmem
      rw [hinfo] at hp
      have hfind := find_del_of_mem_nodup _ t A hp (hWF.delNodup e.archetype ct)
      exact ⟨hWF, hv.1, hfind, rfl, Nat.le_refl _⟩
    | none =>
      rw [focAdd_edge_new w A ct t hA0 hfe]
      obtain ⟨hid, hlen, hnew, hnodeA, hrest, hent⟩ := registerFromNode_getA w A ct t hA
      refine ⟨WFA_registerFromNode w A ct t hWF hA0 hA, by omega, ?_, hent, by omega⟩
      rw [hid, hnew]
      unfold findDelEdgeArchetype
      rw [mkArch_edgesDelOf_self, List.find?_cons_of_pos _ (by simp)]
      rfl

theorem getD_set_cases (l : List (Option Nat)) (i j : Nat) (b a : Nat)
    (h : (l.set i (some b)).getD j none = some a) :
    a = b ∨ l.getD j none = some a := by
  by_cases hij : i = j
  · subst hij
    by_cases hlt : i < l.length
    · rw [getD_set_self _ _ _ _ hlt] at h
      exact Or.inl (Option.some.inj h).symm
    · rw [List.set_eq_of_length_le (by omega)] at h
      exact Or.inr h
  · rw [getD_set_ne _ _ _ _ _ hij] at h
    exact Or.inr h

theorem WFA_init : WFA initWorldA := by
  have hall : ∀ i, getA initWorldA i = emptyArch := by
    intro i
    cases i
    · rfl
    · exact getD_len_le _ _ _ (by simp [initWorldA])
  have hadd : ∀ i ct, (getA initWorldA i).edgesAddOf ct = [] := by
    intro i ct
    rw [hall i]
    cases ct <;> rfl
  have hdel : ∀ i ct, (getA initWorldA i).edgesDelOf ct = [] := by
    intro i ct
    rw [hall i]
    cases ct <;> rfl
  refine ⟨by simp [initWorldA], ⟨rfl, rfl⟩, ?_, ?_, ?_, ?_, ?_, ?_, ?_⟩
  · intro i ct e he
    rw [hadd i ct] at he
    exact absurd he (List.not_mem_nil _)
  · intro i ct e he
    rw [hdel i ct] at he
    exact absurd he (List.not_mem_nil _)
  · intro i ct e he
    rw [hadd i ct] at he
    exact absurd he (List.not_mem_nil _)
  · intro i ct
    rw [hdel i ct]
    simp
  · intro i ct x h0i hilen
    exfalso
    simp [initWorldA] at hilen
    omega
  · intro i h0i hilen
    exfalso
    simp [initWorldA] at hilen
    omega
  · intro e a hea
    rw [show initWorldA.entityArch = [] from rfl,
      getD_len_le _ _ _ (by simp)] at hea
    exact absurd hea (by simp)

theorem WFA_createEntityA (w : WorldA) (hWF : WFA w) : WFA (createEntityA w) := by
  refine ⟨hWF.rootExists, hWF.rootComps, hWF.addValid, hWF.delValid, hWF.pairing,
    hWF.delNodup, hWF.singleDel, hWF.nonempty, ?_⟩
  intro e a hea
  have hea2 : (w.entityArch ++ [none]).getD e none = some a := hea
  by_cases hlt : e < w.entityArch.length
  · rw [getD_append_lt _ _ _ _ hlt] at hea2
    exact hWF.entValid e a hea2
  · by_cases heq : e = w.entityArch.length
    · subst heq
      rw [getD_append_len] at hea2
      exact absurd hea2 (by simp)
    · rw [getD_len_le _ _ _ (by simp; omega)] at hea2
      exact absurd hea2 (by simp)

theorem WFA_addComponentA (w : WorldA) (e : Nat) (ct : CompType) (t : Nat)
    (hWF : WFA w) : WFA (addComponentA w e ct [t]) := by
  have hnode : (w.entityArch.getD e none).getD 0 < w.archetypes.length := by
    cases hx : w.entityArch.getD e none with
    | none => exact hWF.rootExists
    | some a => exact hWF.entValid e a hx
  obtain ⟨hWF2, hlt, _, hent, hle⟩ := focAdd_single w _ ct t hWF hnode
  unfold addComponentA
  refine ⟨hWF2.rootExists, hWF2.rootComps, hWF2.addValid, hWF2.delValid, hWF2.pairing,
    hWF2.delNodup, hWF2.singleDel, hWF2.nonempty, ?_⟩
  intro e2 a hea
  have hea2 : (((findOrCreateArchetypeAdd w ((w.entityArch.getD e none).getD 0) ct
      [t]).1.entityArch).set e
      (some (findOrCreateArchetypeAdd w ((w.entityArch.getD e none).getD 0) ct [t]).2)).getD
      e2 none = some a := hea
  show a < (findOrCreateArchetypeAdd w ((w.entityArch.getD e none).getD 0) ct
    [t]).1.archetypes.length
  rcases getD_set_cases _ _ _ _ _ hea2 with rfl | hold
  · exact hlt
  · rw [hent] at hold
    have := hWF.entValid e2 a hold
    omega

theorem findArchRemoveLoop_valid (w : WorldA) (hWF : WFA w) (ct : CompType)
    (ts : List Nat) (node : Option Nat) (b : Nat)
    (hnode : ∀ n, node = some n → n < w.archetypes.length)
    (h : findArchRemoveLoop w node ct ts = some b) : b < w.archetypes.length := by
  induction ts generalizing node with
  | nil => exact hnode b h
  | cons t rest ih =>
    cases node with
    | none => exact absurd h (by simp [findArchRemoveLoop])
    | some n =>
      refine ih (findDelEdgeArchetype (getA w n) ct t) ?_ h
      intro m hm
      obtain ⟨ed, hmem, hb, _⟩ := findDelEdge_some _ _ _ _ hm
      have := hWF.delValid n ct ed hmem
      omega

theorem WFA_removeComponentA (w : WorldA) (e : Nat) (ct : CompType) (ts : List Nat)
    (hWF : WFA w) : WFA (removeComponentA w e ct ts) := by
  unfold removeComponentA
  split
  · exact hWF
  · rename_i a hx
    split
    · exact hWF
    · rename_i b hb
      have hbv : b < w.archetypes.length := by
        refine findArchRemoveLoop_valid w hWF ct ts (some a) b ?_ hb
        intro n hn
        cases hn
        exact hWF.entValid e a hx
      refine ⟨hWF.rootExists, hWF.rootComps, hWF.addValid, hWF.delValid, hWF.pairing,
        hWF.delNodup, hWF.singleDel, hWF.nonempty, ?_⟩
      intro e2 a2 hea
      have hea2 : (w.entityArch.set e (some b)).getD e2 none = some a2 := hea
      rcases getD_set_cases _ _ _ _ _ hea2 with rfl | hold
      · exact hbv
      · exact hWF.entValid e2 a2 hold

theorem reachableA_WFA (w : WorldA) (h : ReachableA w) : WFA w := by
  induction h with
  | init => exact WFA_init
  | newEntity _ ih => exact WFA_createEntityA _ ih
  | addComp e ct t _ _ ih => exact WFA_addComponentA _ e ct t ih
  | delComp e ct t _ _ ih => exact WFA_removeComponentA _ e ct [t] ih

theorem removeComponentA_eq_of (w1 : WorldA) (e : Nat) (ct : CompType)
    (ts : List Nat) (a b : Nat)
    (h1 : w1.entityArch.getD e none = some a)
    (h2 : findArchetypeRemoveComponents w1 a ct ts = some b) :
    removeComponentA w1 e ct ts
      = { w1 with entityArch := w1.entityArch.set e (some b) } := by
  unfold removeComponentA
  rw [h1]
  show (match findArchetypeRemoveComponents w1 a ct ts with
    | none => w1
    | some b2 => { w1 with entityArch := w1.entityArch.set e (some b2) }) = _
  rw [h2]

theorem addComponentA_eq (w : WorldA) (e : Nat) (ct : CompType) (ts : List Nat) :
    addComponentA w e ct ts
      = { (findOrCreateArchetypeAdd w ((w.entityArch.getD e none).getD 0) ct ts).1 with
          entityArch :=
            ((findOrCreateArchetypeAdd w ((w.entityArch.getD e none).getD 0) ct
              ts).1.entityArch).set e
              (some (findOrCreateArchetypeAdd w ((w.entityArch.getD e none).getD 0) ct
                ts).2) } := rfl

/-! ### C4: add then remove of one component returns to the same archetype id -/

/-- C4: for any reachable world and live entity, adding one component the
entity's archetype does not have and then removing it again leaves the entity
in an archetype with the same archetype id as before the add (the round trip
through the add path and the del edge returns to the identical archetype, not
merely one with an equal component set).  The entity's pre-add archetype id is
`(w.entityArch.getD e none).getD 0` (the root archetype for an empty
entity). -/
theorem add_remove_returns_same_archetype (w : WorldA) (e : Nat) (ct : CompType)
    (t : Nat) (hw : ReachableA w) (he : e < w.entityArch.length)
    (_ht : t ∉ (getA w ((w.entityArch.getD e none).getD 0)).compsOf ct) :
    (removeComponentA (addComponentA w e ct [t]) e ct [t]).entityArch.getD e none
      = some ((w.entityArch.getD e none).getD 0) := by
  have hWF := reachableA_WFA w hw
  have hAlen : (w.entityArch.getD e none).getD 0 < w.archetypes.length := by
    cases hx : w.entityArch.getD e none with
    | none => exact hWF.rootExists
    | some a => exact hWF.entValid e a hx
  obtain ⟨hWF2, hlt, hdel, hent, hle⟩ :=
    focAdd_single w ((w.entityArch.getD e none).getD 0) ct t hWF hAlen
  rw [addComponentA_eq]
  have h1 : ({ (findOrCreateArchetypeAdd w ((w.entityArch.getD e none).getD 0) ct
      [t]).1 with
      entityArch :=
        ((findOrCreateArchetypeAdd w ((w.entityArch.getD e none).getD 0) ct
          [t]).1.entityArch).set e
          (some (findOrCreateArchetypeAdd w ((w.entityArch.getD e none).getD 0) ct
            [t]).2) } : WorldA).entityArch.getD e none
      = some (findOrCreateArchetypeAdd w ((w.entityArch.getD e none).getD 0) ct [t]).2 :=
    getD_set_self _ _ _ _ (by rw [hent]; exact he)
  have h2 : findArchetypeRemoveComponents
      { (findOrCreateArchetypeAdd w ((w.entityArch.getD e none).getD 0) ct [t]).1 with
        entityArch :=
          ((findOrCreateArchetypeAdd w ((w.entityArch.getD e none).getD 0) ct
            [t]).1.entityArch).set e
            (some (findOrCreateArchetypeAdd w ((w.entityArch.getD e none).getD 0) ct
              [t]).2) }
      (findOrCreateArchetypeAdd w ((w.entityArch.getD e none).getD 0) ct [t]).2 ct [t]
      = some ((w.entityArch.getD e none).getD 0) := hdel
  rw [removeComponentA_eq_of _ e ct [t] _ _ h1 h2]
  show (((findOrCreateArchetypeAdd w ((w.entityArch.getD e none).getD 0) ct
      [t]).1.entityArch.set e
      (some (findOrCreateArchetypeAdd w ((w.entityArch.getD e none).getD 0) ct
        [t]).2)).set e (some ((w.entityArch.getD e none).getD 0))).getD e none
      = some ((w.entityArch.getD e none).getD 0)
  refine getD_set_self _ _ _ _ ?_
  rw [List.length_set, hent]
  exact he

/-! ### C1: which graph edges adding a component actually records -/

/-- C1 amended: in a reachable world, when add_component moves a live entity out
of a NON-ROOT archetype A by adding component t, both graph edges are recorded:
the entity lands in an archetype B, A carries an add edge keyed t to B, and B
carries a del edge keyed t back to A.  (For the root archetype the del edge on
B is still recorded, but no add edge is stored on the root — the C1
counterexample.) -/
theorem addComponent_records_graph_edges (w : WorldA) (e A : Nat) (ct : CompType)
    (t : Nat) (hw : ReachableA w) (he : e < w.entityArch.length)
    (hA : w.entityArch.getD e none = some A) (hA0 : A ≠ 0) :
    ∃ B, (addComponentA w e ct [t]).entityArch.getD e none = some B ∧
      (⟨t, B⟩ : GraphEdge) ∈ (getA (addComponentA w e ct [t]) A).edgesAddOf ct ∧
      (⟨t, A⟩ : GraphEdge) ∈ (getA (addComponentA w e ct [t]) B).edgesDelOf ct := by
  have hWF := reachableA_WFA w hw
  have hAlen : A < w.archetypes.length := hWF.entValid e A hA
  rw [addComponentA_eq, hA]
  simp only [Option.getD_some]
  cases hfe : findEdgeAdd (getA w A) ct t with
  | some ed =>
    rw [focAdd_edge_found w A ct t ed hA0 hfe]
    obtain ⟨hmem, hinfo⟩ := findEdgeAdd_some _ _ _ _ hfe
    refine ⟨ed.archetype, ?_, ?_, ?_⟩
    · exact getD_set_self _ _ _ _ he
    · show (⟨t, ed.archetype⟩ : GraphEdge) ∈ (getA w A).edgesAddOf ct
      obtain ⟨i, a⟩ := ed
      have hit : i = t := hinfo
      subst hit
      exact hmem
    · show (⟨t, A⟩ : GraphEdge) ∈ (getA w ed.archetype).edgesDelOf ct
      have hp := hWF.pairing A ct ed hmem
      rw [hinfo] at hp
      exact hp
  | none =>
    rw [focAdd_edge_new w A ct t hA0 hfe]
    obtain ⟨hid, hlen, hnew, hnodeA, hrest, hent⟩ := registerFromNode_getA w A ct t hAlen
    refine ⟨w.archetypes.length, ?_, ?_, ?_⟩
    · show ((registerFromNode w A ct t).1.entityArch.set e
        (some (registerFromNode w A ct t).2)).getD e none = some w.archetypes.length
      rw [hid]
      exact getD_set_self _ _ _ _ (by rw [hent]; exact he)
    · show (⟨t, w.archetypes.length⟩ : GraphEdge)
        ∈ (getA (registerFromNode w A ct t).1 A).edgesAddOf ct
      rw [hnodeA, pushAddEdge_edgesAddOf_self]
      exact List.mem_append_right _ (List.mem_singleton.mpr rfl)
    · show (⟨t, A⟩ : GraphEdge)
        ∈ (getA (registerFromNode w A ct t).1 w.archetypes.length).edgesDelOf ct
      rw [hnew, mkArch_edgesDelOf_self]
      exact List.mem_singleton.mpr rfl

/-- C1 amended, witnessed: in the reachable world `w1c` entity 0 sits in the
non-root archetype 1 = {5}; adding component 7 records the add edge on
archetype 1 and the inverse del edge on the target. -/
theorem addComponent_records_graph_edges_witness :
    ∃ B, (addComponentA w1c 0 CompType.generic [7]).entityArch.getD 0 none = some B ∧
      (⟨7, B⟩ : GraphEdge)
        ∈ (getA (addComponentA w1c 0 CompType.generic [7]) 1).edgesAddOf CompType.generic ∧
      (⟨7, 1⟩ : GraphEdge)
        ∈ (getA (addComponentA w1c 0 CompType.generic [7]) B).edgesDelOf CompType.generic :=
  addComponent_records_graph_edges w1c 0 1 CompType.generic 7
    (ReachableA.addComp 0 CompType.generic 5 (ReachableA.newEntity ReachableA.init)
      (by decide))
    (by decide) (by decide) (by decide)

/-- C1 counterexample: in the reachable world `w1c` the root archetype's
component set plus component 5 equals archetype 1's component set (and the
chunk-type sets agree), yet the root archetype stores NO add edge at all: the
root branch of FindOrCreateArchetype goes through the lookup-hash map and
registers only the del edge on the new archetype, never an add edge on the
root. -/
theorem root_add_edge_missing :
    ReachableA w1c ∧
      sortNats ((getA w1c 0).compsG ++ [5]) = (getA w1c 1).compsG ∧
      (getA w1c 0).compsC = (getA w1c 1).compsC ∧
      (getA w1c 0).edgesAddG = [] ∧ (getA w1c 0).edgesAddC = [] := by
  refine ⟨?_, by decide, by decide, by decide, by decide⟩
  exact ReachableA.addComp 0 CompType.generic 5 (ReachableA.newEntity ReachableA.init)
    (by decide)

/-- C4 witness: a fresh entity (root archetype, id 0) gains and loses component
5 and ends with archetype id 0 recorded. -/
theorem add_remove_returns_same_archetype_witness :
    (removeComponentA (addComponentA (createEntityA initWorldA) 0 CompType.generic [5])
        0 CompType.generic [5]).entityArch.getD 0 none = some 0 :=
  add_remove_returns_same_archetype (createEntityA initWorldA) 0 CompType.generic 5
    (ReachableA.newEntity ReachableA.init) (by decide) (by decide)

/-! ### C2: two live archetypes with the same sorted component set -/

/-- C2: the reachable world `w2c` (components 1 then 2 added to entity 0,
components 2 then 1 added to entity 1) holds FIVE archetypes, two of which —
ids 2 and 4 — are distinct live archetypes with the identical sorted component
set {1, 2}: the loop of FindOrCreateArchetype creates a new archetype blindly
whenever the add edge is missing and consults the lookup-hash map only when
starting from the root, so the claimed no-duplicate invariant fails. -/
theorem duplicate_archetype_same_set :
    ReachableA w2c ∧
      (getA w2c 2).compsG = [1, 2] ∧ (getA w2c 4).compsG = [1, 2] ∧
      (getA w2c 2).compsC = [] ∧ (getA w2c 4).compsC = [] ∧
      w2c.archetypes.length = 5 := by
  refine ⟨?_, by decide, by decide, by decide, by decide, by decide⟩
  refine ReachableA.addComp 1 CompType.generic 1 ?_ (by decide)
  refine ReachableA.addComp 1 CompType.generic 2 ?_ (by decide)
  refine ReachableA.addComp 0 CompType.generic 2 ?_ (by decide)
  refine ReachableA.addComp 0 CompType.generic 1 ?_ (by decide)
  exact ReachableA.newEntity (ReachableA.newEntity ReachableA.init)

/-! ### C3: what GC actually does to a dying chunk with a positive countdown -/

/-- C3: evaluation of the GC code at the failing input.  In the reachable
state w3c the only chunk is empty with its countdown freshly set to
MAX_CHUNK_LIFESPAN = 8.  A single gc() call decrements the countdown once
(to 7, still positive), yet the second loop of GC ("remove all dead chunks")
frees the chunk anyway: the claim says chunks whose countdown is still
positive survive the call. -/
theorem gc_frees_positive_countdown_chunk :
    Reachable2 w3c ∧ w3c.chunks = [some ⟨0, 8⟩] ∧ w3c.toRemove = [0] ∧
      gcLoop w3c.chunks w3c.toRemove 0 = ([some ⟨0, 7⟩], [0]) ∧
      gcOp w3c = ⟨[none], []⟩ := by
  have hloop : gcLoop [some (⟨0, 8⟩ : GChunk)] [0] 0 = ([some ⟨0, 7⟩], [0]) := by
    rw [gcLoop]
    norm_num [getChunkD, setChunk, decLifespan, CHUNK_LIFESPAN_MOD, List.getD]
    rw [gcLoop]
    norm_num
  have h3 : w3c.chunks = [some ⟨0, 8⟩] := by decide
  have h4 : w3c.toRemove = [0] := by decide
  refine ⟨?_, h3, h4, ?_, ?_⟩
  · exact Reachable2.removeEntity 0
      (Reachable2.addEntity 0 (Reachable2.newChunk Reachable2.init))
  · rw [h3, h4]
    exact hloop
  · show gcOp w3c = ⟨[none], []⟩
    unfold gcOp
    rw [h3, h4, hloop]
    decide

/-! ### C5: the enabled/disabled partition versus the entity-table flag -/

/-- C5: evaluation of the enable/disable code at the failing input.  Three
entities 0,1,2 occupy rows 0,1,2; after disable(0), disable(1), enable(0)
the boundary sits at row 1 and the partition identity
countEnabled = count - firstEnabled still holds, but the table flags are
inverted: entity 1 now occupies row 0 — inside the disabled partition — with
dis = false, while entity 0 occupies row 1 — inside the enabled partition —
with dis = true.  The claim says the table flag agrees with the row's side
of the boundary. -/
theorem enable_entity_flags_wrong_entity :
    c5run.1 = ⟨3, 2, 1, [1, 0, 2]⟩ ∧
      c5run.2 = [⟨1, true⟩, ⟨0, false⟩, ⟨2, false⟩] ∧
      c5run.1.countEnabled = c5run.1.count - c5run.1.firstEnabled ∧
      getEntityC c5run.1 0 = 1 ∧ (0 < c5run.1.firstEnabled) ∧
      (c5run.2.getD 1 default).dis = false ∧
      enabledC c5run.1 (c5run.2.getD 0 default).idx = true ∧
      (c5run.2.getD 0 default).dis = true := by
  decide

/-! ### C8: QueryInfo::remove and the grouped ranges -/

/-- C8: evaluation of QueryInfo::remove at the failing input.  The cache
holds archetypes 10,11,12,13 with group 1 covering cache positions 0..1 and
group 2 covering 2..3.  Removing archetype 11 (cache index 1, group index 0)
should shrink group 1 to 0..0 and shift group 2 to 1..2; instead the code
reads the "current group" at m_archetypeGroupData[idx] — the cache index —
so group 1 keeps its range 0..1 and group 2, already shifted to 1..2, is
shrunk again to 1..1.  The positive cursor is decremented as claimed. -/
theorem query_remove_shrinks_wrong_group :
    removeQI gf8 qi8 11 =
        ⟨[10, 13, 12], [1, 2, 2], [⟨1, 0, 1, false⟩, ⟨2, 1, 1, false⟩],
          true, [(7, 2)], []⟩ ∧
      (removeQI gf8 qi8 11).groupData ≠
        [⟨1, 0, 0, false⟩, ⟨2, 1, 2, false⟩] := by
  decide

/-! ### C6: create/delete round trip of the entity allocator -/

theorem mod_succ_ne (g m : Nat) (hg : g < m) (hm : 1 < m) : (g + 1) % m ≠ g := by
  rcases Nat.lt_or_ge (g + 1) m with h | h
  · rw [Nat.mod_eq_of_lt h]
    omega
  · have hgm : g + 1 = m := by omega
    rw [hgm, Nat.mod_self]
    omega

theorem getD_mem (l : List α) (i : Nat) (d : α) (h : i < l.length) : l.getD i d ∈ l := by
  rw [List.getD_eq_getElem?_getD, List.getElem?_eq_getElem h]
  exact List.getElem_mem h

/-- C6: creating an entity and then deleting it increases the free-entity
count by one relative to before the delete, increments the 24-bit generation
stored for that id, invalidates the old handle, and a subsequent create()
that recycles the id returns a handle carrying the new generation.  The
hypotheses are the allocator's own debug assertions: the table is below
Entity::IdMask, the free list head is in range, and stored generations fit
in 24 bits. -/
theorem create_delete_roundtrip (w : World6)
    (hcap : w.entities.length < ENTITY_ID_MASK)
    (hfree : w.freeEntities ≠ 0 → w.nextFreeEntity < w.entities.length)
    (hgen : ∀ c ∈ w.entities, c.gen < ENTITY_GEN_MOD) :
    (deleteEntity (allocateEntity w).1 (allocateEntity w).2).freeEntities
        = (allocateEntity w).1.freeEntities + 1 ∧
      ((deleteEntity (allocateEntity w).1 (allocateEntity w).2).entities.getD
          (allocateEntity w).2.id default).gen
        = ((allocateEntity w).2.gen + 1) % ENTITY_GEN_MOD ∧
      isEntityValid (deleteEntity (allocateEntity w).1 (allocateEntity w).2)
        (allocateEntity w).2 = false ∧
      (allocateEntity (deleteEntity (allocateEntity w).1 (allocateEntity w).2)).2
        = ⟨(allocateEntity w).2.id,
            ((allocateEntity w).2.gen + 1) % ENTITY_GEN_MOD⟩ := by
  have hmod : 1 < ENTITY_GEN_MOD := by norm_num [ENTITY_GEN_MOD]
  by_cases hf : w.freeEntities = 0
  · -- Fresh branch: a zeroed container is pushed at index length.
    set n := w.entities.length with hn
    have halloc : allocateEntity w =
        ({ w with entities := w.entities ++ [default] }, ⟨n, 0⟩) := by
      unfold allocateEntity
      rw [if_pos hf]
    rw [halloc]
    have hnotnull : (⟨n, 0⟩ : EntityH) ≠ entityNull := by
      intro hh
      have : n = ENTITY_ID_MASK := congrArg EntityH.id hh
      omega
    have hdel : deleteEntity { w with entities := w.entities ++ [default] } ⟨n, 0⟩
        = deallocateEntity { w with entities := w.entities ++ [default] } ⟨n, 0⟩ := by
      unfold deleteEntity
      rw [if_neg]
      push_neg
      refine ⟨?_, hnotnull⟩
      simp
    have hcd : ({ w with entities := w.entities ++ [default] } : World6).entities.getD n
        default = default := by
      exact getD_append_len w.entities default default
    have hdealloc : deallocateEntity { w with entities := w.entities ++ [default] } ⟨n, 0⟩
        = { entities := (w.entities ++ [default]).set n
              ⟨ENTITY_ID_MASK, (1 : Nat) % ENTITY_GEN_MOD, none⟩,
            nextFreeEntity := n, freeEntities := 1 } := by
      unfold deallocateEntity
      rw [if_pos hf]
      simp only [hcd]
      rfl
    have h1 : (1 : Nat) % ENTITY_GEN_MOD = 1 := Nat.mod_eq_of_lt hmod
    have hsetlen : ((w.entities ++ [default]).set n
        ⟨ENTITY_ID_MASK, 1 % ENTITY_GEN_MOD, none⟩).length = n + 1 := by
      simp
    have hget : ((w.entities ++ [default]).set n
        ⟨ENTITY_ID_MASK, 1 % ENTITY_GEN_MOD, none⟩).getD n default
        = ⟨ENTITY_ID_MASK, 1 % ENTITY_GEN_MOD, none⟩ := by
      apply getD_set_self
      simp
    rw [hdel, hdealloc]
    refine ⟨?_, ?_, ?_, ?_⟩
    · show (1 : Nat) = w.freeEntities + 1
      omega
    · simp [hget]
    · unfold isEntityValid
      simp only [hget, hsetlen]
      rw [if_neg (by omega), if_pos (by simp only [h1]; omega)]
    · unfold allocateEntity
      rw [if_neg (by simp)]
      simp [hget, h1]
  · -- Recycle branch: the head of the free list is handed out.
    have hnf : w.nextFreeEntity < w.entities.length := hfree hf
    set nf := w.nextFreeEntity with hnfdef
    set c := w.entities.getD nf default with hcdef
    have hcg : c.gen < ENTITY_GEN_MOD := hgen c (getD_mem _ _ _ hnf)
    have halloc : allocateEntity w =
        ({ w with freeEntities := w.freeEntities - 1, nextFreeEntity := c.idx },
          ⟨nf, c.gen⟩) := by
      unfold allocateEntity
      rw [if_neg hf]
    rw [halloc]
    set w1 : World6 :=
      { w with freeEntities := w.freeEntities - 1, nextFreeEntity := c.idx } with hw1
    have hnotnull : (⟨nf, c.gen⟩ : EntityH) ≠ entityNull := by
      intro hh
      have : nf = ENTITY_ID_MASK := congrArg EntityH.id hh
      omega
    have hdel : deleteEntity w1 ⟨nf, c.gen⟩ = deallocateEntity w1 ⟨nf, c.gen⟩ := by
      unfold deleteEntity
      rw [if_neg]
      push_neg
      refine ⟨?_, hnotnull⟩
      show w.entities.length ≠ 0
      omega
    have hcd : w1.entities.getD nf default = c := hcdef
    set g2 := (c.gen + 1) % ENTITY_GEN_MOD with hg2
    have hne : g2 ≠ c.gen := mod_succ_ne c.gen ENTITY_GEN_MOD hcg hmod
    have hdealloc : ∃ link : Nat, deallocateEntity w1 ⟨nf, c.gen⟩
        = { entities := w.entities.set nf ⟨link, g2, none⟩,
            nextFreeEntity := nf, freeEntities := w1.freeEntities + 1 }
        ∨ (w1.freeEntities = 0 ∧ deallocateEntity w1 ⟨nf, c.gen⟩
        = { entities := w.entities.set nf ⟨link, g2, none⟩,
            nextFreeEntity := nf, freeEntities := 1 }) := by
      unfold deallocateEntity
      by_cases hf1 : w1.freeEntities = 0
      · refine ⟨ENTITY_ID_MASK, Or.inr ⟨hf1, ?_⟩⟩
        rw [if_pos hf1]
      · refine ⟨w1.nextFreeEntity, Or.inl ?_⟩
        rw [if_neg hf1]
    obtain ⟨link, hdea⟩ := hdealloc
    have hmain : ∀ fe : Nat,
        (deallocateEntity w1 ⟨nf, c.gen⟩
          = { entities := w.entities.set nf ⟨link, g2, none⟩,
              nextFreeEntity := nf, freeEntities := fe }) →
        fe = w1.freeEntities + 1 →
        (deleteEntity w1 ⟨nf, c.gen⟩).freeEntities = w1.freeEntities + 1 ∧
          ((deleteEntity w1 ⟨nf, c.gen⟩).entities.getD
              (⟨nf, c.gen⟩ : EntityH).id default).gen
            = ((⟨nf, c.gen⟩ : EntityH).gen + 1) % ENTITY_GEN_MOD ∧
          isEntityValid (deleteEntity w1 ⟨nf, c.gen⟩) ⟨nf, c.gen⟩ = false ∧
          (allocateEntity (deleteEntity w1 ⟨nf, c.gen⟩)).2
            = ⟨(⟨nf, c.gen⟩ : EntityH).id,
                ((⟨nf, c.gen⟩ : EntityH).gen + 1) % ENTITY_GEN_MOD⟩ := by
      intro fe heq hfe
      rw [hdel, heq]
      have hget : (w.entities.set nf ⟨link, g2, none⟩).getD nf default
          = ⟨link, g2, none⟩ := getD_set_self _ _ _ _ hnf
      refine ⟨hfe, ?_, ?_, ?_⟩
      · rw [hget]
      · unfold isEntityValid
        simp only [hget, List.length_set]
        rw [if_neg (by omega), if_pos hne]
      · unfold allocateEntity
        rw [if_neg (by simp only []; omega)]
        show (⟨nf, ((w.entities.set nf ⟨link, g2, none⟩).getD nf default).gen⟩ : EntityH)
          = ⟨nf, (c.gen + 1) % ENTITY_GEN_MOD⟩
        rw [hget, hg2]
    rcases hdea with hdea | ⟨hf1, hdea⟩
    · exact hmain (w1.freeEntities + 1) hdea rfl
    · exact hmain 1 hdea (by omega)

/-- C7: with a change filter present, query execution visits exactly those
chunks that are non-empty, pass the enabled/disabled constraint, and have at
least one filtered component whose stored version is newer than the query's
recorded world version; every other chunk is skipped, and after the run the
query's recorded version is set to the (freshly bumped) current world
version. -/
theorem change_filter_skips_unchanged_chunks (worldVersion : Nat) (q : QueryM)
    (cs : List QChunk) (c : QChunk) (hf : hasFilters q = true) :
    (c ∈ (runQueryOnChunksDirect worldVersion q cs).2.1 ↔
      c ∈ cs ∧ 0 < c.count ∧ checkConstraints q (!c.disabled) = true ∧
        ((∃ ti ∈ q.filteredG,
            didVersionChange (c.versionsG.getD (getComponentIdx c.typeIdxG ti) 0)
              q.worldVersion = true) ∨
          (∃ ti ∈ q.filteredC,
            didVersionChange (c.versionsC.getD (getComponentIdx c.typeIdxC ti) 0)
              q.worldVersion = true))) ∧
      (runQueryOnChunksDirect worldVersion q cs).2.2.worldVersion
        = updateVersion worldVersion := by
  refine ⟨?_, rfl⟩
  show c ∈ cs.filter _ ↔ _
  unfold checkFilters didChange
  simp only [List.mem_filter, hf, Bool.not_true, Bool.false_or, Bool.and_eq_true,
    decide_eq_true_eq, Bool.or_eq_true, List.any_eq_true, and_assoc]

theorem change_filter_skips_unchanged_chunks_witness :
    hasFilters q7 = true ∧
      ((c7 ∈ (runQueryOnChunksDirect 5 q7 [c7]).2.1 ↔
        c7 ∈ [c7] ∧ 0 < c7.count ∧ checkConstraints q7 (!c7.disabled) = true ∧
          ((∃ ti ∈ q7.filteredG,
              didVersionChange (c7.versionsG.getD (getComponentIdx c7.typeIdxG ti) 0)
                q7.worldVersion = true) ∨
            (∃ ti ∈ q7.filteredC,
              didVersionChange (c7.versionsC.getD (getComponentIdx c7.typeIdxC ti) 0)
                q7.worldVersion = true))) ∧
        (runQueryOnChunksDirect 5 q7 [c7]).2.2.worldVersion = updateVersion 5) :=
  ⟨by decide, change_filter_skips_unchanged_chunks 5 q7 [c7] c7 (by decide)⟩

theorem create_delete_roundtrip_witness :
    (initWorld6.entities.length < ENTITY_ID_MASK ∧
        (initWorld6.freeEntities ≠ 0 →
          initWorld6.nextFreeEntity < initWorld6.entities.length) ∧
        (∀ c ∈ initWorld6.entities, c.gen < ENTITY_GEN_MOD)) ∧
      (allocateEntity (deleteEntity (allocateEntity initWorld6).1
          (allocateEntity initWorld6).2)).2
        = ⟨(allocateEntity initWorld6).2.id,
            ((allocateEntity initWorld6).2.gen + 1) % ENTITY_GEN_MOD⟩ :=
  ⟨⟨by decide, by decide, by decide⟩,
    (create_delete_roundtrip initWorld6 (by decide) (by decide) (by decide)).2.2.2⟩

end GaiaSpec
